import Mathlib

/-!
Verification of `megatron_lm_encoder_decoder_model.py`
(class `MegatronLMEncoderDecoderModule`).

Shallow embedding conventions:
* A tensor is modelled as a `List R` of its dim-0 slices ("rows"); `R` is an
  abstract row type.  `torch.concat(_, dim=0)` is `List.flatten` of the row
  lists, slicing `t[a:b]` is `(t.drop a).take (b - a)`.
* Scalar math is over `ℚ` (exact rationals); the dtype casts `.long()` /
  `.float()` convert representation without changing in-range values, so
  they are modelled as the identity on rows.
* Distributed collectives (`torch.distributed.all_reduce` with the default
  sum op) are modelled as elementwise sums over all members of the group;
  device moves (`.cuda()`) are the identity.
-/

namespace Megatron

/-- A micro batch as produced by the MegatronT5 dataloader: a record with the
six tensor fields read by `process_micro_batch`.  Each field is the list of
dim-0 rows of the corresponding tensor. -/
structure MicroBatch (R : Type) where
  text_enc : List R
  text_dec : List R
  labels : List R
  loss_mask : List R
  enc_mask : List R
  dec_mask : List R

/-- `process_micro_batch` (source lines 447-461): unpacks the micro-batch dict
and returns the tuple `(tokens_enc, tokens_dec, loss_mask, labels, enc_mask,
dec_mask)` — note the source returns `loss_mask` in the THIRD and `labels` in
the FOURTH position.  The `.long()` / `.float()` dtype casts are
value-preserving and modelled as the identity. -/
def process_micro_batch {R : Type} (micro_batch : MicroBatch R) :
    List R × List R × List R × List R × List R × List R :=
  (micro_batch.text_enc, micro_batch.text_dec, micro_batch.loss_mask,
    micro_batch.labels, micro_batch.enc_mask, micro_batch.dec_mask)

/-- The per-micro-batch loop body of `process_global_batch` (source lines
474-484): positionally unpacks `process_micro_batch`'s result as
`text_enc, text_dec, labels, loss_mask, enc_mask, dec_mask` (so the binder
named `labels` actually receives the loss mask and vice versa), and tiles
the encoder/decoder masks once per example
(`torch.concat([enc_mask for _ in range(micro_batch_size)])`). -/
def process_global_batch_item {R : Type} (micro_batch : MicroBatch R) :
    List R × List R × List R × List R × List R × List R :=
  match process_micro_batch micro_batch with
  | (text_enc, text_dec, labels, loss_mask, enc_mask, dec_mask) =>
    let micro_batch_size := text_enc.length
    let enc_mask_repeat := (List.replicate micro_batch_size enc_mask).flatten
    let dec_mask_repeat := (List.replicate micro_batch_size dec_mask).flatten
    (text_enc, text_dec, labels, loss_mask, enc_mask_repeat, dec_mask_repeat)

/-- `process_global_batch` (source lines 464-494): accumulates the unpacked
components of every micro batch in order and concatenates each of the six
lists along the batch dimension, returning
`(tokens_enc_tensor, tokens_dec_tensor, labels_tensor, loss_mask_tensor,
enc_mask_tensor, dec_mask_tensor)`. -/
def process_global_batch {R : Type} (global_batch : List (MicroBatch R)) :
    List R × List R × List R × List R × List R × List R :=
  let items := global_batch.map process_global_batch_item
  ((items.map (·.1)).flatten,
   (items.map (·.2.1)).flatten,
   (items.map (·.2.2.1)).flatten,
   (items.map (·.2.2.2.1)).flatten,
   (items.map (·.2.2.2.2.1)).flatten,
   (items.map (·.2.2.2.2.2)).flatten)

/-- The mask of micro batch `mb` tiled once per example of the micro batch,
as built inside `process_global_batch` for the encoder mask. -/
def tiled_enc_mask {R : Type} (mb : MicroBatch R) : List R :=
  (List.replicate mb.text_enc.length mb.enc_mask).flatten

/-- The mask of micro batch `mb` tiled once per example of the micro batch,
as built inside `process_global_batch` for the decoder mask. -/
def tiled_dec_mask {R : Type} (mb : MicroBatch R) : List R :=
  (List.replicate mb.text_enc.length mb.dec_mask).flatten

/-- Offset of the `i`-th micro-batch boundary inside the concatenation of
`parts`: the total number of rows contributed by the first `i` parts. -/
def boundary {R : Type} (parts : List (List R)) (i : Nat) : Nat :=
  ((parts.take i).map List.length).sum

/-- The slice of the concatenation of `parts` between the `i`-th and
`(i+1)`-th boundaries. -/
def sliceNth {R : Type} (parts : List (List R)) (i : Nat) : List R :=
  ((parts.flatten).drop (boundary parts i)).take ((parts.getD i []).length)

lemma sliceNth_join {R : Type} :
    ∀ (parts : List (List R)) (i : Nat), i < parts.length →
      sliceNth parts i = parts.getD i [] := by
  intro parts
  induction parts with
  | nil => intro i h; simp at h
  | cons p ps ih =>
    intro i h
    cases i with
    | zero =>
      simp [sliceNth, boundary, List.take_left]
    | succ j =>
      have hj : j < ps.length := by simpa using h
      have hih := ih j hj
      simp only [sliceNth, boundary, List.take_succ_cons, List.map_cons,
        List.sum_cons, List.getD_cons_succ, List.flatten_cons] at *
      rw [List.drop_append]
      exact hih

/-- `t[off : off + len]`: the dim-0 slice of tensor `t` starting at row
`off` with `len` rows. -/
def slice {R : Type} (t : List R) (off len : Nat) : List R :=
  (t.drop off).take len

lemma slice_flatten_eq {R : Type} (parts : List (List R)) (i : Nat)
    (h : i < parts.length) :
    slice parts.flatten (boundary parts i) parts[i].length = parts[i] := by
  have := sliceNth_join parts i h
  rw [sliceNth, List.getD_eq_getElem parts [] h] at this
  exact this

/-- The six outputs of `process_global_batch`, rewritten as concatenations of
the per-micro-batch contributions.  Because of the positional unpacking
mismatch between `process_micro_batch` (which returns
`(..., loss_mask, labels, ...)`) and `process_global_batch`'s loop (which
binds `(..., labels, loss_mask, ...)`), the THIRD returned tensor
(`labels_tensor`) concatenates the micro batches' `loss_mask` fields and
the FOURTH (`loss_mask_tensor`) their `labels` fields. -/
lemma process_global_batch_item_eq {R : Type} (mb : MicroBatch R) :
    process_global_batch_item mb =
      (mb.text_enc, mb.text_dec, mb.loss_mask, mb.labels,
        tiled_enc_mask mb, tiled_dec_mask mb) := rfl

lemma process_global_batch_eq {R : Type} (gb : List (MicroBatch R)) :
    process_global_batch gb =
      ((gb.map (·.text_enc)).flatten,
       (gb.map (·.text_dec)).flatten,
       (gb.map (·.loss_mask)).flatten,
       (gb.map (·.labels)).flatten,
       (gb.map tiled_enc_mask).flatten,
       (gb.map tiled_dec_mask).flatten) := by
  simp [process_global_batch, List.map_map, Function.comp_def,
    process_global_batch_item_eq]

lemma slice_component {R : Type} (gb : List (MicroBatch R))
    (f : MicroBatch R → List R) (i : Nat) (h : i < gb.length) :
    slice (gb.map f).flatten (boundary (gb.map f) i) (f gb[i]).length
      = f gb[i] := by
  have hm : i < (gb.map f).length := by simpa using h
  have := slice_flatten_eq (gb.map f) i hm
  simpa using this

/-- C2 (amended): slicing each tensor returned by `process_global_batch` at
its micro-batch boundaries reproduces, for micro batch `i`, in order:
`text_enc`, `text_dec`, `loss_mask`, `labels` (loss mask and labels in THAT
order, swapped relative to the claim), the tiled `enc_mask` and the tiled
`dec_mask` of the original micro batch. -/
theorem process_global_batch_round_trip {R : Type}
    (gb : List (MicroBatch R)) (i : Nat) (h : i < gb.length) :
    slice (process_global_batch gb).1
        (boundary (gb.map (·.text_enc)) i) gb[i].text_enc.length
      = gb[i].text_enc ∧
    slice (process_global_batch gb).2.1
        (boundary (gb.map (·.text_dec)) i) gb[i].text_dec.length
      = gb[i].text_dec ∧
    slice (process_global_batch gb).2.2.1
        (boundary (gb.map (·.loss_mask)) i) gb[i].loss_mask.length
      = gb[i].loss_mask ∧
    slice (process_global_batch gb).2.2.2.1
        (boundary (gb.map (·.labels)) i) gb[i].labels.length
      = gb[i].labels ∧
    slice (process_global_batch gb).2.2.2.2.1
        (boundary (gb.map tiled_enc_mask) i) (tiled_enc_mask gb[i]).length
      = tiled_enc_mask gb[i] ∧
    slice (process_global_batch gb).2.2.2.2.2
        (boundary (gb.map tiled_dec_mask) i) (tiled_dec_mask gb[i]).length
      = tiled_dec_mask gb[i] := by
  rw [process_global_batch_eq]
  exact ⟨slice_component gb _ i h, slice_component gb _ i h,
    slice_component gb _ i h, slice_component gb _ i h,
    slice_component gb _ i h, slice_component gb _ i h⟩

/-- Witness for `process_global_batch_round_trip` at a concrete two
micro-batch global batch. -/
theorem process_global_batch_round_trip_witness :
    (1 < ([⟨[10], [11], [12], [13], [14], [15]⟩,
           ⟨[20, 21], [22], [23], [24], [25], [26]⟩] :
            List (MicroBatch ℤ)).length) ∧
    slice (process_global_batch
        ([⟨[10], [11], [12], [13], [14], [15]⟩,
          ⟨[20, 21], [22], [23], [24], [25], [26]⟩] :
            List (MicroBatch ℤ))).2.2.1
      (boundary (([⟨[10], [11], [12], [13], [14], [15]⟩,
          ⟨[20, 21], [22], [23], [24], [25], [26]⟩] :
            List (MicroBatch ℤ)).map (·.loss_mask)) 1) 1 = [24] := by
  refine ⟨by decide, ?_⟩
  have h := process_global_batch_round_trip
    ([⟨[10], [11], [12], [13], [14], [15]⟩,
      ⟨[20, 21], [22], [23], [24], [25], [26]⟩] : List (MicroBatch ℤ))
    1 (by decide)
  exact h.2.2.1

/-- C2 (counterexample to the claim as stated): the THIRD tensor returned by
`process_global_batch`, sliced at the first micro-batch boundary, does NOT
reproduce the micro batch's `labels` field (it holds the `loss_mask` data
instead). -/
theorem process_global_batch_third_slot_not_labels :
    slice (process_global_batch
        ([⟨[10], [11], [12], [13], [14], [15]⟩] : List (MicroBatch ℤ))).2.2.1
        0 1 = [13] ∧
    (([⟨[10], [11], [12], [13], [14], [15]⟩] :
        List (MicroBatch ℤ)).get ⟨0, by decide⟩).labels = [12] ∧
    ([13] : List ℤ) ≠ [12] := by
  refine ⟨?_, by decide, by decide⟩
  decide

/-- The argument bindings produced by `fwd_output_and_loss_func` (source
lines 366-384) from one micro-batch tuple: it unpacks the six tensors
positionally as `encoder_input_ids, decoder_input_ids, loss_mask, lm_labels,
encoder_attn_mask, decoder_attn_mask`, passes `lm_labels` as the model's
`labels=` argument, and captures `loss_mask` in the `loss_func` closure. -/
structure FwdBindings (R : Type) where
  enc_input_ids : List R
  dec_input_ids : List R
  enc_attn_mask : List R
  dec_attn_mask : List R
  labels_arg : List R
  loss_mask_closure : List R

/-- `fwd_output_and_loss_func`'s unpacking of a micro-batch tuple (source
line 368); the `.cuda()` moves are the identity. -/
def fwd_output_and_loss_func_bindings {R : Type}
    (batch : List R × List R × List R × List R × List R × List R) :
    FwdBindings R :=
  match batch with
  | (encoder_input_ids, decoder_input_ids, loss_mask, lm_labels,
     encoder_attn_mask, decoder_attn_mask) =>
    { enc_input_ids := encoder_input_ids
      dec_input_ids := decoder_input_ids
      enc_attn_mask := encoder_attn_mask
      dec_attn_mask := decoder_attn_mask
      labels_arg := lm_labels
      loss_mask_closure := loss_mask }

instance {R : Type} : Inhabited (MicroBatch R) :=
  ⟨⟨[], [], [], [], [], []⟩⟩

/-- The `i`-th micro-batch slice of the assembled global batch, as handed to
the forward-step function by the schedule: each of the six assembled tensors
sliced at the `i`-th micro-batch boundary. -/
def kth_microbatch {R : Type} (gb : List (MicroBatch R)) (i : Nat) :
    List R × List R × List R × List R × List R × List R :=
  (slice (process_global_batch gb).1
      (boundary (gb.map (·.text_enc)) i) ((gb.getD i default).text_enc.length),
   slice (process_global_batch gb).2.1
      (boundary (gb.map (·.text_dec)) i) ((gb.getD i default).text_dec.length),
   slice (process_global_batch gb).2.2.1
      (boundary (gb.map (·.loss_mask)) i) ((gb.getD i default).loss_mask.length),
   slice (process_global_batch gb).2.2.2.1
      (boundary (gb.map (·.labels)) i) ((gb.getD i default).labels.length),
   slice (process_global_batch gb).2.2.2.2.1
      (boundary (gb.map tiled_enc_mask) i) (tiled_enc_mask (gb.getD i default)).length,
   slice (process_global_batch gb).2.2.2.2.2
      (boundary (gb.map tiled_dec_mask) i) (tiled_dec_mask (gb.getD i default)).length)

/-- C9: the positional swap introduced by `process_global_batch`'s unpacking
of `process_micro_batch` is exactly cancelled by
`fwd_output_and_loss_func`'s unpacking: for every micro batch of the global
batch, the tensor captured by the `loss_func` closure as the loss mask is the
micro batch's original `loss_mask` field, and the tensor passed as `labels=`
to the model is the original `labels` field. -/
theorem fwd_bindings_cancel_swap {R : Type}
    (gb : List (MicroBatch R)) (i : Nat) (h : i < gb.length) :
    (fwd_output_and_loss_func_bindings (kth_microbatch gb i)).loss_mask_closure
      = gb[i].loss_mask ∧
    (fwd_output_and_loss_func_bindings (kth_microbatch gb i)).labels_arg
      = gb[i].labels := by
  have hrt := process_global_batch_round_trip gb i h
  have hd : gb.getD i default = gb[i] := List.getD_eq_getElem gb default h
  constructor
  · show slice (process_global_batch gb).2.2.1
      (boundary (gb.map (·.loss_mask)) i) ((gb.getD i default).loss_mask.length)
      = gb[i].loss_mask
    rw [hd]
    exact hrt.2.2.1
  · show slice (process_global_batch gb).2.2.2.1
      (boundary (gb.map (·.labels)) i) ((gb.getD i default).labels.length)
      = gb[i].labels
    rw [hd]
    exact hrt.2.2.2.1

/-- Witness for `fwd_bindings_cancel_swap` at a concrete global batch. -/
theorem fwd_bindings_cancel_swap_witness :
    (0 < ([⟨[10], [11], [12], [13], [14], [15]⟩] :
        List (MicroBatch ℤ)).length) ∧
    (fwd_output_and_loss_func_bindings
        (kth_microbatch
          ([⟨[10], [11], [12], [13], [14], [15]⟩] : List (MicroBatch ℤ))
          0)).loss_mask_closure = [13] := by
  refine ⟨by decide, ?_⟩
  have h := fwd_bindings_cancel_swap
    ([⟨[10], [11], [12], [13], [14], [15]⟩] : List (MicroBatch ℤ)) 0 (by decide)
  simpa using h.1

/-! ## Loss function (`loss_func`, source lines 440-445) -/

/-- `loss_func` (source lines 440-445):
`loss = torch.sum(losses.view(-1) * loss_mask) / loss_mask.sum()`.
Both tensors are viewed as flat lists of exact scalars; the `.float()` casts
are value-preserving.  There is no guard on the divisor: the division is
taken in `ℚ`, where `x / 0 = 0`. -/
def loss_func (loss_mask : List ℚ) (output_tensor : List ℚ) : ℚ :=
  (List.zipWith (· * ·) output_tensor loss_mask).sum / loss_mask.sum

/-- C10: `loss_func` divides by `loss_mask.sum()` unguarded.  For a 0/1
valued mask with at least one nonzero entry the divisor is nonzero (indeed
`≥ 1`) and the result is the unique solution of
`loss * mask.sum = sum(losses * mask)`, i.e. a well-defined weighted
average; an all-zero mask makes the divisor exactly zero. -/
theorem loss_func_division_guard (loss_mask losses : List ℚ)
    (h01 : ∀ x ∈ loss_mask, x = 0 ∨ x = 1) :
    ((∃ x ∈ loss_mask, x ≠ 0) →
      loss_mask.sum ≠ 0 ∧
      loss_func loss_mask losses * loss_mask.sum
        = (List.zipWith (· * ·) losses loss_mask).sum) ∧
    ((∀ x ∈ loss_mask, x = 0) → loss_mask.sum = 0) := by
  constructor
  · rintro ⟨x, hx, hxne⟩
    have hx1 : x = 1 := by
      rcases h01 x hx with h | h
      · exact absurd h hxne
      · exact h
    have hnonneg : ∀ y ∈ loss_mask, (0 : ℚ) ≤ y := by
      intro y hy
      rcases h01 y hy with h | h <;> simp [h]
    have hle : x ≤ loss_mask.sum := List.single_le_sum hnonneg x hx
    have hsum : (1 : ℚ) ≤ loss_mask.sum := hx1 ▸ hle
    have hne : loss_mask.sum ≠ 0 := by positivity
    exact ⟨hne, div_mul_cancel₀ _ hne⟩
  · intro hz
    exact List.sum_eq_zero hz

/-- Witness for `loss_func_division_guard` with mask `[1, 0]` and losses
`[3, 5]`. -/
theorem loss_func_division_guard_witness :
    (∀ x ∈ ([1, 0] : List ℚ), x = 0 ∨ x = 1) ∧
    ([1, 0] : List ℚ).sum ≠ 0 ∧
    loss_func [1, 0] [3, 5] * ([1, 0] : List ℚ).sum
      = (List.zipWith (· * ·) ([3, 5] : List ℚ) [1, 0]).sum := by
  have h01 : ∀ x ∈ ([1, 0] : List ℚ), x = 0 ∨ x = 1 := by decide
  refine ⟨h01, ?_⟩
  exact (loss_func_division_guard [1, 0] [3, 5] h01).1 ⟨1, by decide, by decide⟩

/-! ## Step-level loss reduction (C5) -/

/-- A per-micro-batch loss reduction record: the `'avg'` entry is a tensor
of scalars (returned as `{'avg': reduced_loss}` by the `loss_func` closure,
source line 383). -/
structure LossRecord where
  avg : List ℚ

/-- `torch.Tensor.mean()` on a flat tensor: sum divided by element count. -/
def tensor_mean (t : List ℚ) : ℚ :=
  t.sum / t.length

/-- The loss computed by `training_step` (source lines 220-227): if the
scheduler returned loss records, concatenate the `'avg'` tensors and take
their mean; otherwise the scalar `0.0`. -/
def training_step_loss (losses_reduced_per_micro_batch : List LossRecord) : ℚ :=
  if losses_reduced_per_micro_batch.isEmpty then 0
  else tensor_mean ((losses_reduced_per_micro_batch.map (·.avg)).flatten)

/-- Result of `validation_step` (source lines 417-426): a scalar loss on the
terminal stage, the empty list placeholder otherwise. -/
inductive ValStepResult
  | scalar (x : ℚ)
  | emptyList
deriving DecidableEq

/-- The value returned by `validation_step` (source lines 417-426). -/
def validation_step_loss (losses_reduced_per_micro_batch : List LossRecord) :
    ValStepResult :=
  if losses_reduced_per_micro_batch.isEmpty then .emptyList
  else .scalar (tensor_mean ((losses_reduced_per_micro_batch.map (·.avg)).flatten))

/-- C5: with no local loss records (non-terminal pipeline stage) the training
step loss is the scalar zero and the validation result is the empty-list
placeholder; with records present, both compute the mean (sum over count) of
the concatenated per-micro-batch `'avg'` scalars. -/
theorem step_loss_default_and_mean
    (records : List LossRecord) :
    (records = [] →
      training_step_loss records = 0 ∧
      validation_step_loss records = .emptyList) ∧
    (records ≠ [] →
      training_step_loss records
        = ((records.map (·.avg)).flatten).sum
            / ((records.map (·.avg)).flatten).length ∧
      validation_step_loss records
        = .scalar (((records.map (·.avg)).flatten).sum
            / ((records.map (·.avg)).flatten).length)) := by
  constructor
  · rintro rfl
    constructor <;> rfl
  · intro hne
    have hnotempty : records.isEmpty = false := by
      simpa [List.isEmpty_iff] using hne
    constructor <;>
      simp [training_step_loss, validation_step_loss, hnotempty, tensor_mean]

/-- Witness for `step_loss_default_and_mean` on both branches: an empty
record list and a two-record list. -/
theorem step_loss_default_and_mean_witness :
    training_step_loss [] = 0 ∧
    validation_step_loss [] = .emptyList ∧
    training_step_loss [⟨[2]⟩, ⟨[4]⟩] = 3 := by
  refine ⟨((step_loss_default_and_mean []).1 rfl).1,
    ((step_loss_default_and_mean []).1 rfl).2, ?_⟩
  have h := ((step_loss_default_and_mean [⟨[2]⟩, ⟨[4]⟩]).2 (by simp)).1
  rw [h]
  norm_num

/-! ## Vocabulary padding (`_vocab_size_with_padding`, source lines 716-727) -/

/-- The `while (after % multiple) != 0: after += 1` loop of
`_vocab_size_with_padding`.  For `multiple = 0` Python's `%` raises
`ZeroDivisionError` and the loop is never entered with a result; that branch
returns a junk value (`after`) and is outside every claim (both factors of
`multiple` are `≥ 1`). -/
def padLoop (multiple after : Nat) : Nat :=
  if h0 : multiple = 0 then after
  else if h : after % multiple = 0 then after
  else padLoop multiple (after + 1)
termination_by (multiple - after % multiple) % multiple
decreasing_by
  have h0' : 0 < multiple := Nat.pos_of_ne_zero h0
  have hk : after % multiple < multiple := Nat.mod_lt _ h0'
  have hm2 : 2 ≤ multiple := by omega
  have hstep : (after + 1) % multiple = (after % multiple + 1) % multiple := by
    conv_lhs => rw [Nat.add_mod]
    rw [Nat.mod_eq_of_lt (by omega : 1 < multiple)]
  rcases Nat.lt_or_ge (after % multiple + 1) multiple with hlt | hge
  · rw [hstep, Nat.mod_eq_of_lt hlt,
      Nat.mod_eq_of_lt (by omega : multiple - (after % multiple + 1) < multiple),
      Nat.mod_eq_of_lt (by omega : multiple - after % multiple < multiple)]
    omega
  · have heq : after % multiple + 1 = multiple := by omega
    rw [hstep, heq, Nat.mod_self, Nat.sub_zero, Nat.mod_self,
      Nat.mod_eq_of_lt (by omega : multiple - after % multiple < multiple)]
    omega

/-- Closed form of the padding loop: it adds exactly the distance to the
next multiple. -/
lemma padLoop_eq (multiple : Nat) (hm : 0 < multiple) (after : Nat) :
    padLoop multiple after = after + (multiple - after % multiple) % multiple := by
  induction after using padLoop.induct multiple with
  | case1 x h0 => omega
  | case2 x h0 h =>
    rw [padLoop]
    simp [h0, h]
  | case3 x h0 h ih =>
    rw [padLoop]
    simp only [dif_neg h0, dif_neg h]
    rw [ih]
    have h0' : 0 < multiple := Nat.pos_of_ne_zero h0
    have hk : x % multiple < multiple := Nat.mod_lt _ h0'
    have hm2 : 2 ≤ multiple := by omega
    have hstep : (x + 1) % multiple = (x % multiple + 1) % multiple := by
      conv_lhs => rw [Nat.add_mod]
      rw [Nat.mod_eq_of_lt (by omega : 1 < multiple)]
    rcases Nat.lt_or_ge (x % multiple + 1) multiple with hlt | hge
    · rw [hstep, Nat.mod_eq_of_lt hlt,
        Nat.mod_eq_of_lt (by omega : multiple - (x % multiple + 1) < multiple),
        Nat.mod_eq_of_lt (by omega : multiple - x % multiple < multiple)]
      omega
    · have heq : x % multiple + 1 = multiple := by omega
      rw [hstep, heq, Nat.mod_self, Nat.sub_zero, Nat.mod_self,
        Nat.mod_eq_of_lt (by omega : multiple - x % multiple < multiple)]
      omega

/-- `_vocab_size_with_padding` (source lines 716-727): increment
`orig_vocab_size` until it is divisible by
`make_vocab_size_divisible_by * tensor_model_parallel_size`.  The `logging`
call has no effect on the result and is dropped. -/
def _vocab_size_with_padding (orig_vocab_size make_vocab_size_divisible_by
    tensor_model_parallel_size : Nat) : Nat :=
  padLoop (make_vocab_size_divisible_by * tensor_model_parallel_size)
    orig_vocab_size

lemma padLoop_mod (multiple after : Nat) (hm : 0 < multiple) :
    padLoop multiple after % multiple = 0 := by
  rw [padLoop_eq multiple hm after]
  rcases Nat.eq_zero_or_pos (after % multiple) with h | h
  · simp [Nat.add_mod, h]
  · have hk : after % multiple < multiple := Nat.mod_lt _ hm
    rw [Nat.mod_eq_of_lt (by omega : multiple - after % multiple < multiple)]
    have : (after + (multiple - after % multiple)) % multiple
        = (after % multiple + (multiple - after % multiple)) % multiple := by
      conv_lhs => rw [Nat.add_mod]
      rw [Nat.mod_eq_of_lt (by omega : multiple - after % multiple < multiple)]
    rw [this]
    have : after % multiple + (multiple - after % multiple) = multiple := by omega
    rw [this, Nat.mod_self]

/-- C7: for positive inputs, `_vocab_size_with_padding` terminates (it is a
total function here, with the loop measure proved decreasing) and returns
the smallest integer `≥ orig_vocab_size` that is a multiple of
`make_vocab_size_divisible_by * tensor_model_parallel_size`; in particular
`_vocab_size_with_padding 50000 128 4 = 50176`. -/
theorem vocab_size_with_padding_is_next_multiple
    (orig make tp : Nat) (ho : 1 ≤ orig) (hmk : 1 ≤ make) (htp : 1 ≤ tp) :
    orig ≤ _vocab_size_with_padding orig make tp ∧
    _vocab_size_with_padding orig make tp % (make * tp) = 0 ∧
    (∀ b, orig ≤ b → b % (make * tp) = 0 →
      _vocab_size_with_padding orig make tp ≤ b) ∧
    _vocab_size_with_padding 50000 128 4 = 50176 := by
  have hm : 0 < make * tp := Nat.mul_pos hmk htp
  set m := make * tp with hmdef
  have hconcrete : _vocab_size_with_padding 50000 128 4 = 50176 := by
    show padLoop (128 * 4) 50000 = 50176
    rw [padLoop_eq (128 * 4) (by norm_num) 50000]
  refine ⟨?_, padLoop_mod m orig hm, ?_, hconcrete⟩
  · rw [_vocab_size_with_padding, padLoop_eq m hm orig]
    omega
  · intro b hb hbmod
    rw [_vocab_size_with_padding, padLoop_eq m hm orig]
    rcases Nat.eq_zero_or_pos (orig % m) with hk | hk
    · simpa [hk] using hb
    · have hklt : orig % m < m := Nat.mod_lt _ hm
      rw [Nat.mod_eq_of_lt (by omega : m - orig % m < m)]
      by_contra hcon
      push_neg at hcon
      obtain ⟨q, hq⟩ : m ∣ b := Nat.dvd_of_mod_eq_zero hbmod
      have hdm : m * (orig / m) + orig % m = orig := Nat.div_add_mod orig m
      have hmul : m * (orig / m + 1) = m * (orig / m) + m := Nat.mul_succ m _
      have hres : orig + (m - orig % m) = m * (orig / m + 1) := by omega
      have hqlt : m * q < m * (orig / m + 1) := by
        rw [← hq, ← hres]; exact hcon
      have hqlt' : q < orig / m + 1 := Nat.lt_of_mul_lt_mul_left hqlt
      have hble : b ≤ m * (orig / m) := by
        have hq' : q ≤ orig / m := by omega
        calc b = m * q := hq
          _ ≤ m * (orig / m) := Nat.mul_le_mul_left m hq'
      omega

/-- Witness for `vocab_size_with_padding_is_next_multiple` at the claim's
concrete instance. -/
theorem vocab_size_with_padding_witness :
    (1 ≤ 50000 ∧ 1 ≤ 128 ∧ 1 ≤ 4) ∧
    _vocab_size_with_padding 50000 128 4 = 50176 ∧
    50176 % (128 * 4) = 0 := by
  refine ⟨⟨by norm_num, by norm_num, by norm_num⟩, ?_, by norm_num⟩
  exact (vocab_size_with_padding_is_next_multiple 50000 128 4
    (by norm_num) (by norm_num) (by norm_num)).2.2.2

/-! ## Replicated-embedding gradient reduction (C1) -/

/-- Which gradient buffer of the shared word-embedding weight an embedding
group all-reduce acts on. -/
inductive GradChoice
  | plain
  | main_grad
deriving DecidableEq

/-- The rank/topology facts read from `parallel_state` by the post-backward
phase of `training_step` (source lines 239-241). -/
structure ParallelState where
  pipeline_model_parallel_world_size : Nat
  is_pipeline_first_stage : Bool
  is_pipeline_last_stage : Bool

/-- The model-level configuration read by the embedding reduction:
`self.megatron_amp_o2` (source line 90) and
`self.model.share_word_embeddings` (source lines 242, 356). -/
structure ModelFlags where
  megatron_amp_o2 : Bool
  share_word_embeddings : Bool

/-- The embedding-gradient all-reduce performed by `training_step` after the
scheduler's backward (source lines 229-245): the WHOLE block, including the
first/last stage embedding reduction, is guarded by
`if not self.megatron_amp_o2:`; inside it, when the pipeline world size
exceeds 1, this rank is the first or last stage, and the model shares its
word embeddings, the PLAIN gradient `word_embeddings_weight.grad` is
all-reduced over the embedding group.  Returns which buffer is reduced, or
`none` when no embedding reduction happens. -/
def training_step_embedding_allreduce (ps : ParallelState) (mf : ModelFlags) :
    Option GradChoice :=
  if ¬ mf.megatron_amp_o2 then
    if ps.pipeline_model_parallel_world_size > 1 ∧
        (ps.is_pipeline_first_stage ∨ ps.is_pipeline_last_stage) then
      if mf.share_word_embeddings then some .plain else none
    else none
  else none

/-- `allreduce_first_last_embeddings` (source lines 346-363): the standalone
helper (never invoked by `training_step`) that picks `main_grad` on the
mixed-precision-O2 path and `grad` otherwise. -/
def allreduce_first_last_embeddings (ps : ParallelState) (mf : ModelFlags) :
    Option GradChoice :=
  if ps.pipeline_model_parallel_world_size > 1 ∧
      (ps.is_pipeline_first_stage ∨ ps.is_pipeline_last_stage) then
    if mf.share_word_embeddings then
      if mf.megatron_amp_o2 then some .main_grad else some .plain
    else none
  else none

/-- `torch.distributed.all_reduce(grad, group=embedding_group)` with the
embedding group containing the first- and last-stage copies of the shared
embedding: both members end up holding the elementwise sum. -/
def embedding_group_allreduce (g_first g_last : List ℚ) : List ℚ × List ℚ :=
  (List.zipWith (· + ·) g_first g_last, List.zipWith (· + ·) g_first g_last)

/-- C1 (counterexample to the claim as stated): with pipeline world size 2,
on the first stage, with shared word embeddings and the
mixed-precision-O2 path ACTIVE, `training_step` performs NO embedding
all-reduce at all (the claim requires the master-precision gradient to be
reduced in this situation). -/
theorem training_step_embedding_allreduce_o2_cex :
    training_step_embedding_allreduce ⟨2, true, false⟩ ⟨true, true⟩ = none ∧
    (none : Option GradChoice) ≠ some GradChoice.main_grad := by
  exact ⟨rfl, by decide⟩

/-- C1 (amended): under pipeline world size > 1, on the first or last stage,
with shared input/output embeddings, `training_step` all-reduces the
embedding weight's PLAIN gradient over the embedding group — but only when
the mixed-precision-O2 path is NOT active; when it is active,
`training_step` performs no embedding reduction (only the uncalled helper
`allreduce_first_last_embeddings` would use the master-precision gradient).
After the all-reduce both embedding copies hold the identical elementwise
sum of the two pre-reduction gradients. -/
theorem training_step_embedding_allreduce_spec
    (ps : ParallelState) (mf : ModelFlags) (g_first g_last : List ℚ)
    (hpp : 1 < ps.pipeline_model_parallel_world_size)
    (hfl : ps.is_pipeline_first_stage = true ∨ ps.is_pipeline_last_stage = true)
    (hsh : mf.share_word_embeddings = true) :
    (mf.megatron_amp_o2 = false →
      training_step_embedding_allreduce ps mf = some .plain) ∧
    (mf.megatron_amp_o2 = true →
      training_step_embedding_allreduce ps mf = none) ∧
    allreduce_first_last_embeddings ps mf
      = some (if mf.megatron_amp_o2 then .main_grad else .plain) ∧
    (embedding_group_allreduce g_first g_last).1
      = (embedding_group_allreduce g_first g_last).2 ∧
    (embedding_group_allreduce g_first g_last).1
      = List.zipWith (· + ·) g_first g_last := by
  have hcond : ps.pipeline_model_parallel_world_size > 1 ∧
      (ps.is_pipeline_first_stage ∨ ps.is_pipeline_last_stage) := by
    constructor
    · exact hpp
    · rcases hfl with h | h <;> simp [h]
  refine ⟨?_, ?_, ?_, rfl, rfl⟩
  · intro ho2
    simp [training_step_embedding_allreduce, ho2, hcond, hsh]
  · intro ho2
    simp [training_step_embedding_allreduce, ho2]
  · simp only [allreduce_first_last_embeddings, if_pos hcond, hsh, if_pos]
    cases mf.megatron_amp_o2 <;> simp

/-- Witness for `training_step_embedding_allreduce_spec` at a concrete
non-O2 state. -/
theorem training_step_embedding_allreduce_spec_witness :
    (1 < (2 : Nat) ∧ (true = true ∨ false = true) ∧ true = true) ∧
    training_step_embedding_allreduce ⟨2, true, false⟩ ⟨false, true⟩
      = some GradChoice.plain := by
  refine ⟨⟨by decide, Or.inl rfl, rfl⟩, ?_⟩
  exact (training_step_embedding_allreduce_spec ⟨2, true, false⟩ ⟨false, true⟩
    [] [] (by decide) (Or.inl rfl) rfl).1 rfl

/-! ## Mixed-precision coordinator (`on_train_batch_end`, source lines
270-306) -/

/-- Modelled from the spec: the external learning-rate scheduler object
(constructed by the external optimizer/scheduler service, §6), "exposing a
`step()`-like operation and an adjustable internal counter": `rate` is its
learning-rate schedule as a function of the internal counter `last_epoch`;
`step()` increments the counter and recomputes the optimizer learning rate
from it. -/
structure LRScheduler where
  rate : ℤ → ℚ
  last_epoch : ℤ
  lr : ℚ

/-- Modelled from the spec: `scheduler.step()` — advance the internal
counter by one and set the learning rate from the schedule at the new
counter. -/
def scheduler_step (s : LRScheduler) : LRScheduler :=
  { s with last_epoch := s.last_epoch + 1, lr := s.rate (s.last_epoch + 1) }

/-- The trainer state read and written by `on_train_batch_end`:
`trainer.lr_schedulers`, `trainer.fit_loop.max_steps`, the grad scaler's
`optimizer_update_skipped` flag, `automatic_optimization`, and one flag
summarizing the plugin checks of source lines 275-284 (precision plugin
present, of the native-mixed-precision class, carrying a `GradScaler`). -/
structure TrainerState where
  schedulers : List LRScheduler
  max_steps : ℤ
  optimizer_update_skipped : Option Bool
  automatic_optimization : Bool
  has_native_amp_plugin_with_scaler : Bool

/-- `on_train_batch_end` (source lines 270-306).  When the plugin checks
pass and the scaler reports `optimizer_update_skipped is True`: if there are
no schedulers or automatic optimization is off, return unchanged (the early
`return` on line 293 — note it leaves the skip flag set and the step budget
unchanged); otherwise decrement each scheduler's `last_epoch` by 2 and call
`step()` on it, add 1 to `max_steps`, and reset the skip flag to `None`. -/
def on_train_batch_end (st : TrainerState) : TrainerState :=
  if st.has_native_amp_plugin_with_scaler then
    if st.optimizer_update_skipped = some true then
      if st.schedulers.isEmpty ∨ ¬ st.automatic_optimization then st
      else
        { st with
          schedulers := st.schedulers.map
            (fun s => scheduler_step { s with last_epoch := s.last_epoch - 2 }),
          max_steps := st.max_steps + 1,
          optimizer_update_skipped := none }
    else st
  else st

/-- C3 (counterexample to the claim as stated): a train-batch-end where the
scaler reports the step was skipped but no learning-rate scheduler is
configured: the early return leaves the maximum-step budget at 100 instead
of incrementing it to 101, and leaves the skip flag set instead of
resetting it to `None`. -/
theorem on_train_batch_end_no_scheduler_cex :
    (on_train_batch_end ⟨[], 100, some true, true, true⟩).max_steps = 100 ∧
    (100 : ℤ) ≠ 101 ∧
    (on_train_batch_end
      ⟨[], 100, some true, true, true⟩).optimizer_update_skipped
      = some true ∧
    (some true : Option Bool) ≠ none := by
  refine ⟨rfl, by decide, rfl, by decide⟩

/-- C3 (amended): when the scaler reports a skipped optimizer step AND at
least one scheduler is configured AND automatic optimization is on,
`on_train_batch_end` rewinds every scheduler's counter by 2 and replays one
`step()` — leaving each counter one below its value on entry and the
learning rate equal to the schedule evaluated there, so a batch whose
normal scheduler step is followed by this hook ends with every counter and
learning rate back at the schedule value from before the batch —
increments `max_steps` by exactly 1, and resets the skip flag to `None`;
without a scheduler (or with manual optimization) it changes nothing. -/
theorem on_train_batch_end_skip_rewind (st : TrainerState)
    (hplug : st.has_native_amp_plugin_with_scaler = true)
    (hskip : st.optimizer_update_skipped = some true)
    (hsched : st.schedulers ≠ [])
    (hauto : st.automatic_optimization = true) :
    (on_train_batch_end st).max_steps = st.max_steps + 1 ∧
    (on_train_batch_end st).optimizer_update_skipped = none ∧
    (on_train_batch_end st).schedulers
      = st.schedulers.map (fun s =>
          { s with last_epoch := s.last_epoch - 1,
                   lr := s.rate (s.last_epoch - 1) }) ∧
    (on_train_batch_end
        { st with schedulers := st.schedulers.map scheduler_step }).schedulers
      = st.schedulers.map (fun s => { s with lr := s.rate s.last_epoch }) := by
  have hempty : st.schedulers.isEmpty = false := by
    simpa [List.isEmpty_iff] using hsched
  have hcond : ¬ (st.schedulers.isEmpty ∨ ¬ st.automatic_optimization) := by
    simp [hempty, hauto]
  have hempty' : (st.schedulers.map scheduler_step).isEmpty = false := by
    simp [List.isEmpty_iff, List.map_eq_nil_iff, hsched]
  have hcond' : ¬ ((st.schedulers.map scheduler_step).isEmpty ∨
      ¬ st.automatic_optimization) := by
    simp [hempty', hauto]
  refine ⟨?_, ?_, ?_, ?_⟩
  · simp [on_train_batch_end, hplug, hskip, hempty, hauto]
  · simp [on_train_batch_end, hplug, hskip, hempty, hauto]
  · simp only [on_train_batch_end, hplug, hskip]
    simp only [hempty, hauto]
    simp only [Bool.false_eq_true, not_true_eq_false, or_self, if_false,
      if_true, reduceIte]
    apply List.map_congr_left
    intro s _
    simp only [scheduler_step]
    have he : s.last_epoch - 2 + 1 = s.last_epoch - 1 := by omega
    rw [he]
  · simp only [on_train_batch_end, hplug, hskip]
    simp only [hempty', hauto]
    simp only [Bool.false_eq_true, not_true_eq_false, or_self, if_false,
      if_true, reduceIte]
    simp only [List.map_map]
    apply List.map_congr_left
    intro s _
    simp only [Function.comp_apply, scheduler_step]
    have he : s.last_epoch + 1 - 2 + 1 = s.last_epoch := by omega
    rw [he]

/-- Witness for `on_train_batch_end_skip_rewind` with one scheduler whose
schedule is the identity function on the counter. -/
theorem on_train_batch_end_skip_rewind_witness :
    (on_train_batch_end
        ⟨[⟨fun n => (n : ℚ), 5, 5⟩], 100, some true, true, true⟩).max_steps
      = 101 ∧
    (on_train_batch_end
        ⟨[⟨fun n => (n : ℚ), 5, 5⟩], 100, some true, true,
          true⟩).optimizer_update_skipped = none ∧
    (on_train_batch_end
        ⟨[⟨fun n => (n : ℚ), 5, 5⟩], 100, some true, true, true⟩).schedulers
      = [⟨fun n => (n : ℚ), 4, 4⟩] := by
  have h := on_train_batch_end_skip_rewind
    ⟨[⟨fun n => (n : ℚ), 5, 5⟩], 100, some true, true, true⟩
    rfl rfl (by simp) rfl
  refine ⟨h.1, h.2.1, ?_⟩
  rw [h.2.2.1]
  norm_num

/-! ## Bucketed gradient all-reduce (`allreduce_gradients`, source lines
321-344) -/

/-- A trainable parameter as seen by `allreduce_gradients`: its
`requires_grad` flag, its data dtype string (`param.data.type()`), and its
gradient — a flat list of exact scalars, `none` when `param.grad is None`. -/
structure Param where
  requires_grad : Bool
  dtype : String
  grad : Option (List ℚ)

instance : Inhabited Param := ⟨⟨false, "", none⟩⟩

/-- The gradient tensor of parameter `i` of `ps` (empty if absent). -/
def gradAt (ps : List Param) (i : Nat) : List ℚ :=
  ((ps.getD i default).grad).getD []

/-- Parameter `i` participates in the bucketed reduction:
`param.requires_grad and param.grad is not None` (source line 329). -/
def isActive (ps : List Param) (i : Nat) : Bool :=
  (ps.getD i default).requires_grad && ((ps.getD i default).grad).isSome

/-- The dtype key of parameter `i` (`tp = param.data.type()`, line 330). -/
def dtypeAt (ps : List Param) (i : Nat) : String :=
  (ps.getD i default).dtype

/-- Indices of the parameters that enter a bucket, in iteration order. -/
def activeIdxs (ps : List Param) : List Nat :=
  (List.range ps.length).filter (isActive ps)

/-- Keep the first occurrence of each key, given the keys already seen:
the key order of a Python dict built by repeated insertion. -/
def firstOccurGo : List String → List String → List String
  | [], _ => []
  | x :: xs, seen => if x ∈ seen then firstOccurGo xs seen
      else x :: firstOccurGo xs (x :: seen)

/-- Keys in first-insertion order. -/
def firstOccur (l : List String) : List String :=
  firstOccurGo l []

/-- The bucket dictionary of source lines 326-334: keyed by dtype in
first-insertion order; each bucket lists the active parameter indices of
that dtype in iteration order (a Python `dict` of appended lists). -/
def packBuckets (ps : List Param) : List (String × List Nat) :=
  (firstOccur ((activeIdxs ps).map (dtypeAt ps))).map
    (fun tp => (tp, (activeIdxs ps).filter (fun i => dtypeAt ps i = tp)))

/-- `torch._utils._flatten_dense_tensors(grads)` for one bucket: the
gradients of the bucket's parameters concatenated into one flat buffer. -/
def bucketBuffer (ps : List Param) (idxs : List Nat) : List ℚ :=
  (idxs.map (gradAt ps)).flatten

/-- `coalesced /= parallel_state.get_data_parallel_world_size()` (line 341). -/
def coalescedDiv (W : ℕ) (buf : List ℚ) : List ℚ :=
  buf.map (· / (W : ℚ))

/-- Elementwise sum of a family of equal-length buffers (the effect of a
sum all-reduce over the group whose members hold these buffers). -/
def sumLists : List (List ℚ) → List ℚ
  | [] => []
  | b :: bs => bs.foldl (List.zipWith (· + ·)) b

/-- The buffer replica `qs` contributes to its `k`-th all-reduce call:
its `k`-th bucket, flattened and pre-divided by the world size. -/
def nthBucketBuffer (W : ℕ) (qs : List Param) (k : Nat) : List ℚ :=
  coalescedDiv W (bucketBuffer qs (((packBuckets qs).getD k ("", [])).2))

/-- `torch.distributed.all_reduce(coalesced, group=data_parallel_group)`
(line 342): the `k`-th collective call sums, elementwise, the `k`-th
coalesced buffers of all data-parallel replicas. -/
def syncedBuffer (W : ℕ) (replicas : List (List Param)) (k : Nat) : List ℚ :=
  sumLists (replicas.map (fun qs => nthBucketBuffer W qs k))

/-- `torch._utils._unflatten_dense_tensors(coalesced, grads)`: split the
flat buffer back into pieces of the given lengths. -/
def unflattenInto : List Nat → List ℚ → List (List ℚ)
  | [], _ => []
  | n :: rest, buf => buf.take n :: unflattenInto rest (buf.drop n)

/-- `buf.copy_(synced)` for each parameter of a bucket (lines 343-344):
write piece `j` into the gradient of the `j`-th parameter of the bucket. -/
def copyBack (cur : List Param) (idxs : List Nat) (pieces : List (List ℚ)) :
    List Param :=
  (idxs.zip pieces).foldl
    (fun ps ig => ps.set ig.1 { ps.getD ig.1 default with grad := some ig.2 })
    cur

/-- The bucket loop of source lines 337-344, for the replica holding `ps`:
bucket `k` is flattened (shapes read from `ps`'s own gradients), pre-divided
by the world size, summed across replicas by the `k`-th all-reduce call, and
scattered back in place.  Distinct buckets touch disjoint parameters (a
parameter has one dtype), so reading shapes and buffers from the original
`ps` is equivalent to the source's sequential in-place loop. -/
def applyBucketsFrom (W : ℕ) (replicas : List (List Param)) (ps : List Param) :
    Nat → List (String × List Nat) → List Param → List Param
  | _, [], cur => cur
  | k, b :: bs, cur =>
      applyBucketsFrom W replicas ps (k + 1) bs
        (copyBack cur b.2
          (unflattenInto (b.2.map (fun i => (gradAt ps i).length))
            (syncedBuffer W replicas k)))

/-- `allreduce_gradients` (source lines 321-344), modelled simultaneously on
every data-parallel replica: each replica packs its buckets and runs the
bucket loop; the `k`-th all-reduce call of each replica participates in one
collective summing the replicas' `k`-th buffers. -/
def allreduce_gradients (W : ℕ) (replicas : List (List Param)) :
    List (List Param) :=
  replicas.map (fun ps => applyBucketsFrom W replicas ps 0 (packBuckets ps) ps)

/-- The elementwise arithmetic mean over all replicas of the pre-call
gradient of parameter `i`. -/
def meanGrad (replicas : List (List Param)) (i : Nat) : List ℚ :=
  (sumLists (replicas.map (fun qs => gradAt qs i))).map
    (· / (replicas.length : ℚ))

/-- Two parameter lists agree on length and, pointwise, on `requires_grad`,
dtype, and gradient presence/shape (everything the bucket structure and the
collective call pattern depend on). -/
def SameShape (ps qs : List Param) : Prop :=
  ps.length = qs.length ∧
  ∀ i, i < ps.length →
    (ps.getD i default).requires_grad = (qs.getD i default).requires_grad ∧
    (ps.getD i default).dtype = (qs.getD i default).dtype ∧
    Option.map List.length (ps.getD i default).grad
      = Option.map List.length (qs.getD i default).grad

lemma mem_firstOccurGo (x : String) :
    ∀ (l seen : List String), x ∈ firstOccurGo l seen ↔ x ∈ l ∧ x ∉ seen := by
  intro l
  induction l with
  | nil => intro seen; simp [firstOccurGo]
  | cons y ys ih =>
    intro seen
    by_cases hy : y ∈ seen
    · rw [firstOccurGo, if_pos hy, ih]
      constructor
      · rintro ⟨h1, h2⟩; exact ⟨List.mem_cons_of_mem y h1, h2⟩
      · rintro ⟨h1, h2⟩
        rcases List.mem_cons.1 h1 with rfl | h1
        · exact absurd hy h2
        · exact ⟨h1, h2⟩
    · rw [firstOccurGo, if_neg hy]
      constructor
      · intro h
        rcases List.mem_cons.1 h with rfl | h
        · exact ⟨List.mem_cons_self _ _, hy⟩
        · rcases (ih (y :: seen)).1 h with ⟨h1, h2⟩
          refine ⟨List.mem_cons_of_mem y h1, fun hc => h2 ?_⟩
          exact List.mem_cons_of_mem y hc
      · rintro ⟨h1, h2⟩
        rcases List.mem_cons.1 h1 with rfl | h1
        · exact List.mem_cons_self _ _
        · by_cases hxy : x = y
          · subst hxy; exact List.mem_cons_self _ _
          · refine List.mem_cons_of_mem y ((ih (y :: seen)).2 ⟨h1, ?_⟩)
            intro hc
            rcases List.mem_cons.1 hc with h | h
            · exact hxy h
            · exact h2 h

lemma nodup_firstOccurGo :
    ∀ (l seen : List String), (firstOccurGo l seen).Nodup := by
  intro l
  induction l with
  | nil => intro seen; simp [firstOccurGo]
  | cons y ys ih =>
    intro seen
    by_cases hy : y ∈ seen
    · rw [firstOccurGo, if_pos hy]; exact ih seen
    · rw [firstOccurGo, if_neg hy]
      refine List.Nodup.cons ?_ (ih (y :: seen))
      intro hc
      exact ((mem_firstOccurGo y ys (y :: seen)).1 hc).2 (List.mem_cons_self _ _)

lemma mem_firstOccur (x : String) (l : List String) :
    x ∈ firstOccur l ↔ x ∈ l := by
  rw [firstOccur, mem_firstOccurGo]
  simp

lemma nodup_firstOccur (l : List String) : (firstOccur l).Nodup :=
  nodup_firstOccurGo l []

lemma isActive_false_of_ge (ps : List Param) (i : Nat) (h : ps.length ≤ i) :
    isActive ps i = false := by
  rw [isActive, List.getD_eq_default _ _ h]
  rfl

lemma lt_length_of_isActive (ps : List Param) (i : Nat)
    (h : isActive ps i = true) : i < ps.length := by
  by_contra hc
  rw [isActive_false_of_ge ps i (by omega)] at h
  exact Bool.false_ne_true h

lemma SameShape.isActive_eq {ps qs : List Param} (h : SameShape ps qs)
    (i : Nat) : isActive ps i = isActive qs i := by
  obtain ⟨hlen, hpt⟩ := h
  by_cases hi : i < ps.length
  · obtain ⟨h1, _, h3⟩ := hpt i hi
    rw [isActive, isActive, h1]
    have : ((ps.getD i default).grad).isSome = ((qs.getD i default).grad).isSome := by
      cases hg : (ps.getD i default).grad with
      | none => cases hg' : (qs.getD i default).grad with
        | none => rfl
        | some g => rw [hg, hg'] at h3; simp at h3
      | some g => cases hg' : (qs.getD i default).grad with
        | none => rw [hg, hg'] at h3; simp at h3
        | some g' => rfl
    rw [this]
  · rw [isActive_false_of_ge ps i (by omega),
      isActive_false_of_ge qs i (by omega)]

lemma SameShape.gradAt_length_eq {ps qs : List Param} (h : SameShape ps qs)
    (i : Nat) (hi : i < ps.length) :
    (gradAt ps i).length = (gradAt qs i).length := by
  obtain ⟨hlen, hpt⟩ := h
  obtain ⟨_, _, h3⟩ := hpt i hi
  rw [gradAt, gradAt]
  cases hg : (ps.getD i default).grad with
  | none => cases hg' : (qs.getD i default).grad with
    | none => rfl
    | some g => rw [hg, hg'] at h3; simp at h3
  | some g => cases hg' : (qs.getD i default).grad with
    | none => rw [hg, hg'] at h3; simp at h3
    | some g' =>
      rw [hg, hg'] at h3
      simpa using h3

lemma SameShape.activeIdxs_eq {ps qs : List Param} (h : SameShape ps qs) :
    activeIdxs ps = activeIdxs qs := by
  rw [activeIdxs, activeIdxs, h.1]
  exact List.filter_congr (fun i _ => h.isActive_eq i)

lemma mem_activeIdxs (ps : List Param) (i : Nat) :
    i ∈ activeIdxs ps ↔ isActive ps i = true := by
  rw [activeIdxs, List.mem_filter, List.mem_range]
  constructor
  · rintro ⟨_, h⟩; exact h
  · intro h; exact ⟨lt_length_of_isActive ps i h, h⟩

lemma nodup_activeIdxs (ps : List Param) : (activeIdxs ps).Nodup :=
  List.Nodup.filter _ (List.nodup_range _)

lemma SameShape.packBuckets_eq {ps qs : List Param} (h : SameShape ps qs) :
    packBuckets ps = packBuckets qs := by
  have hact : activeIdxs ps = activeIdxs qs := h.activeIdxs_eq
  have hdt : ∀ i ∈ activeIdxs ps, dtypeAt ps i = dtypeAt qs i := by
    intro i hi
    have hlt : i < ps.length :=
      lt_length_of_isActive ps i ((mem_activeIdxs ps i).1 hi)
    exact (h.2 i hlt).2.1
  have hmap : (activeIdxs ps).map (dtypeAt ps)
      = (activeIdxs qs).map (dtypeAt qs) := by
    rw [← hact]
    exact List.map_congr_left hdt
  rw [packBuckets, packBuckets, ← hmap, ← hact]
  apply List.map_congr_left
  intro tp _
  congr 1
  exact List.filter_congr (fun i hi => by rw [hdt i hi])

lemma getD_set_ne (l : List Param) (j : Nat) (a : Param) (i : Nat)
    (h : j ≠ i) : (l.set j a).getD i default = l.getD i default := by
  rw [List.getD, List.getD, List.get?_eq_getElem?, List.get?_eq_getElem?,
    List.getElem?_set_ne h]

lemma getD_set_eq (l : List Param) (i : Nat) (a : Param)
    (h : i < l.length) : (l.set i a).getD i default = a := by
  rw [List.getD, List.get?_eq_getElem?, List.getElem?_set_eq_of_lt _ h]
  rfl

lemma foldl_copy_length (z : List (ℕ × List ℚ)) :
    ∀ (cur : List Param),
      (z.foldl (fun ps ig =>
        ps.set ig.1 { ps.getD ig.1 default with grad := some ig.2 })
        cur).length = cur.length := by
  induction z with
  | nil => intro cur; rfl
  | cons p z ih =>
    intro cur
    rw [List.foldl_cons, ih]
    exact List.length_set ..

lemma foldl_copy_getD_not_mem (z : List (ℕ × List ℚ)) (i : Nat) :
    ∀ (cur : List Param), (∀ p ∈ z, p.1 ≠ i) →
      (z.foldl (fun ps ig =>
        ps.set ig.1 { ps.getD ig.1 default with grad := some ig.2 })
        cur).getD i default = cur.getD i default := by
  induction z with
  | nil => intro cur _; rfl
  | cons p z ih =>
    intro cur hz
    rw [List.foldl_cons, ih _ (fun q hq => hz q (List.mem_cons_of_mem p hq))]
    exact getD_set_ne _ _ _ _ (hz p (List.mem_cons_self _ _))

lemma copyBack_length (cur : List Param) (idxs : List Nat)
    (pieces : List (List ℚ)) :
    (copyBack cur idxs pieces).length = cur.length :=
  foldl_copy_length _ cur

lemma copyBack_getD_not_mem (cur : List Param) (idxs : List Nat)
    (pieces : List (List ℚ)) (i : Nat) (h : i ∉ idxs) :
    (copyBack cur idxs pieces).getD i default = cur.getD i default := by
  refine foldl_copy_getD_not_mem _ i cur ?_
  intro p hp hc
  exact h (hc ▸ (List.of_mem_zip hp).1)

lemma copyBack_getD_mem :
    ∀ (idxs : List Nat) (pieces : List (List ℚ)) (cur : List Param) (i : Nat)
      (j : Nat), idxs.Nodup → j < idxs.length → j < pieces.length →
      idxs.getD j 0 = i → i < cur.length →
      (copyBack cur idxs pieces).getD i default
        = { cur.getD i default with grad := some (pieces.getD j []) } := by
  intro idxs
  induction idxs with
  | nil => intro pieces cur i j _ hj; simp at hj
  | cons a as ih =>
    intro pieces cur i j hnodup hj hjp hji hi
    cases pieces with
    | nil => simp at hjp
    | cons p ps' =>
      cases j with
      | zero =>
        simp only [List.getD_cons_zero] at hji
        subst hji
        rw [copyBack, List.zip_cons_cons, List.foldl_cons]
        have hnotmem : a ∉ as := (List.nodup_cons.1 hnodup).1
        have : (copyBack
            (cur.set a { cur.getD a default with grad := some p }) as ps')
              = (as.zip ps').foldl
                (fun ps ig =>
                  ps.set ig.1 { ps.getD ig.1 default with grad := some ig.2 })
                (cur.set a { cur.getD a default with grad := some p }) := rfl
        rw [← this, copyBack_getD_not_mem _ _ _ _ hnotmem,
          getD_set_eq _ _ _ hi]
        simp
      | succ j' =>
        simp only [List.getD_cons_succ] at hji
        rw [copyBack, List.zip_cons_cons, List.foldl_cons]
        have hstep : (as.zip ps').foldl
            (fun ps ig =>
              ps.set ig.1 { ps.getD ig.1 default with grad := some ig.2 })
            (cur.set a { cur.getD a default with grad := some p })
              = copyBack
                (cur.set a { cur.getD a default with grad := some p })
                as ps' := rfl
        rw [hstep, ih ps' _ i j' (List.nodup_cons.1 hnodup).2
          (by simpa using hj) (by simpa using hjp) hji
          (by rw [List.length_set]; exact hi)]
        have hne : a ≠ i := by
          intro hc
          subst hc
          have hj' : j' < as.length := by simpa using hj
          have hmem : a ∈ as := by
            have hg : as.getD j' 0 = as[j'] := List.getD_eq_getElem as 0 hj'
            rw [hg] at hji
            rw [← hji]
            exact List.getElem_mem hj'
          exact (List.nodup_cons.1 hnodup).1 hmem
        rw [getD_set_ne _ _ _ _ hne]
        simp

lemma unflattenInto_length :
    ∀ (shapes : List Nat) (buf : List ℚ),
      (unflattenInto shapes buf).length = shapes.length := by
  intro shapes
  induction shapes with
  | nil => intro buf; rfl
  | cons n rest ih =>
    intro buf
    rw [unflattenInto, List.length_cons, ih]
    rfl

lemma applyBucketsFrom_getD_not_mem (W : ℕ) (reps : List (List Param))
    (ps : List Param) (i : Nat) :
    ∀ (bs : List (String × List Nat)) (k : Nat) (cur : List Param),
      (∀ b ∈ bs, i ∉ b.2) →
      (applyBucketsFrom W reps ps k bs cur).getD i default
        = cur.getD i default := by
  intro bs
  induction bs with
  | nil => intro k cur _; rfl
  | cons b rest ih =>
    intro k cur hb
    rw [applyBucketsFrom,
      ih (k + 1) _ (fun b' hb' => hb b' (List.mem_cons_of_mem b hb')),
      copyBack_getD_not_mem _ _ _ _ (hb b (List.mem_cons_self _ _))]

lemma applyBucketsFrom_getD_spec (W : ℕ) (reps : List (List Param))
    (ps : List Param) (i : Nat) :
    ∀ (bs : List (String × List Nat)) (k : Nat) (cur : List Param) (m : Nat)
      (hm : m < bs.length),
      i ∈ (bs.get ⟨m, hm⟩).2 →
      (∀ k', (hk' : k' < bs.length) → k' ≠ m → i ∉ (bs.get ⟨k', hk'⟩).2) →
      ((bs.get ⟨m, hm⟩).2).Nodup →
      i < cur.length →
      (applyBucketsFrom W reps ps k bs cur).getD i default
        = { cur.getD i default with
            grad := some ((unflattenInto ((bs.get ⟨m, hm⟩).2.map
              (fun e => (gradAt ps e).length)) (syncedBuffer W reps (k + m))).getD
              ((bs.get ⟨m, hm⟩).2.indexOf i) []) } := by
  intro bs
  induction bs with
  | nil => intro k cur m hm; simp at hm
  | cons b rest ih =>
    intro k cur m hm hmem hother hnodup hi
    cases m with
    | zero =>
      simp only [List.get] at hmem hnodup ⊢
      rw [applyBucketsFrom]
      have hrest : ∀ b' ∈ rest, i ∉ b'.2 := by
        intro b' hb'
        obtain ⟨⟨k', hk'⟩, hbk⟩ := List.mem_iff_get.1 hb'
        have hx := hother (k' + 1) (by simpa using hk') (by omega)
        rw [← hbk]
        simpa [List.get] using hx
      rw [applyBucketsFrom_getD_not_mem W reps ps i rest (k + 1) _ hrest]
      have hj : b.2.indexOf i < b.2.length := List.indexOf_lt_length.2 hmem
      have hji : b.2.getD (b.2.indexOf i) 0 = i := by
        rw [List.getD_eq_getElem _ _ hj]
        exact List.getElem_indexOf hj
      rw [copyBack_getD_mem b.2 _ cur i (b.2.indexOf i) hnodup hj
        (by rw [unflattenInto_length, List.length_map]; exact hj) hji hi]
      rw [Nat.add_zero]
    | succ m' =>
      simp only [List.get] at hmem hnodup ⊢
      rw [applyBucketsFrom]
      have hm' : m' < rest.length := by simpa using hm
      have hnotmem : i ∉ b.2 := by
        have := hother 0 (by omega) (by omega)
        simpa [List.get] using this
      have hother' : ∀ k', (hk' : k' < rest.length) → k' ≠ m' →
          i ∉ (rest.get ⟨k', hk'⟩).2 := by
        intro k' hk' hne
        have := hother (k' + 1) (by simpa using hk') (by omega)
        simpa [List.get] using this
      rw [ih (k + 1) _ m' hm' hmem hother' hnodup
        (by rw [copyBack_length]; exact hi)]
      rw [copyBack_getD_not_mem _ _ _ _ hnotmem]
      have : k + 1 + m' = k + (m' + 1) := by omega
      rw [this]

lemma unflatten_flatten :
    ∀ (gs : List (List ℚ)),
      unflattenInto (gs.map List.length) gs.flatten = gs := by
  intro gs
  induction gs with
  | nil => rfl
  | cons g gs ih =>
    rw [List.map_cons, List.flatten_cons, unflattenInto,
      List.take_left, List.drop_left, ih]

/-- Elementwise sum of a family of equal-shaped lists of gradient tensors
(proof-side companion of `sumLists` at the unflattened level). -/
def sumShaped : List (List (List ℚ)) → List (List ℚ)
  | [] => []
  | h :: t => t.foldl (List.zipWith (List.zipWith (· + ·))) h

lemma zipWith_add_flatten :
    ∀ (a b : List (List ℚ)), a.map List.length = b.map List.length →
      List.zipWith (· + ·) a.flatten b.flatten
        = (List.zipWith (List.zipWith (· + ·)) a b).flatten := by
  intro a
  induction a with
  | nil =>
    intro b hb
    cases b with
    | nil => rfl
    | cons y ys => simp at hb
  | cons x xs ih =>
    intro b hb
    cases b with
    | nil => simp at hb
    | cons y ys =>
      simp only [List.map_cons, List.cons.injEq] at hb
      rw [List.flatten_cons, List.flatten_cons,
        List.zipWith_append _ _ _ _ _ hb.1, List.zipWith_cons_cons,
        List.flatten_cons, ih ys hb.2]

lemma zipWith_zipWith_shape :
    ∀ (a b : List (List ℚ)), a.map List.length = b.map List.length →
      (List.zipWith (List.zipWith (· + ·)) a b).map List.length
        = a.map List.length := by
  intro a
  induction a with
  | nil => intro b _; rfl
  | cons x xs ih =>
    intro b hb
    cases b with
    | nil => simp at hb
    | cons y ys =>
      simp only [List.map_cons, List.cons.injEq] at hb
      rw [List.zipWith_cons_cons, List.map_cons, List.map_cons, ih ys hb.2,
        List.length_zipWith, hb.1, Nat.min_self]

lemma foldl_zip_flatten (shape : List Nat) :
    ∀ (t : List (List (List ℚ))) (acc : List (List ℚ)),
      acc.map List.length = shape → (∀ h ∈ t, h.map List.length = shape) →
      (t.map List.flatten).foldl (List.zipWith (· + ·)) acc.flatten
        = (t.foldl (List.zipWith (List.zipWith (· + ·))) acc).flatten := by
  intro t
  induction t with
  | nil => intro acc _ _; rfl
  | cons h t ih =>
    intro acc hacc ht
    have hh : h.map List.length = shape := ht h (List.mem_cons_self _ _)
    have hshape : acc.map List.length = h.map List.length := by rw [hacc, hh]
    rw [List.map_cons, List.foldl_cons, List.foldl_cons,
      zipWith_add_flatten acc h hshape,
      ih _ (by rw [zipWith_zipWith_shape acc h hshape, hacc])
        (fun h' hh' => ht h' (List.mem_cons_of_mem h hh'))]

lemma sumLists_map_flatten (shape : List Nat) (hs : List (List (List ℚ)))
    (hsh : ∀ h ∈ hs, h.map List.length = shape) :
    sumLists (hs.map List.flatten) = (sumShaped hs).flatten := by
  cases hs with
  | nil => rfl
  | cons h t =>
    rw [List.map_cons, sumLists, sumShaped]
    exact foldl_zip_flatten shape t h (hsh h (List.mem_cons_self _ _))
      (fun h' hh' => hsh h' (List.mem_cons_of_mem h hh'))

lemma foldl_zip_shape (shape : List Nat) :
    ∀ (t : List (List (List ℚ))) (acc : List (List ℚ)),
      acc.map List.length = shape → (∀ h ∈ t, h.map List.length = shape) →
      (t.foldl (List.zipWith (List.zipWith (· + ·))) acc).map List.length
        = shape := by
  intro t
  induction t with
  | nil => intro acc hacc _; exact hacc
  | cons h t ih =>
    intro acc hacc ht
    have hh : h.map List.length = shape := ht h (List.mem_cons_self _ _)
    have hshape : acc.map List.length = h.map List.length := by rw [hacc, hh]
    rw [List.foldl_cons]
    exact ih _ (by rw [zipWith_zipWith_shape acc h hshape, hacc])
      (fun h' hh' => ht h' (List.mem_cons_of_mem h hh'))

lemma sumShaped_shape (shape : List Nat) (hs : List (List (List ℚ)))
    (hne : hs ≠ []) (hsh : ∀ h ∈ hs, h.map List.length = shape) :
    (sumShaped hs).map List.length = shape := by
  cases hs with
  | nil => exact absurd rfl hne
  | cons h t =>
    rw [sumShaped]
    exact foldl_zip_shape shape t h (hsh h (List.mem_cons_self _ _))
      (fun h' hh' => hsh h' (List.mem_cons_of_mem h hh'))

lemma length_of_shape {hs : List (List ℚ)} {shape : List Nat}
    (h : hs.map List.length = shape) : hs.length = shape.length := by
  rw [← h, List.length_map]

lemma zipWith_zip_getD (a b : List (List ℚ)) (j : Nat)
    (ha : j < a.length) (hb : j < b.length) :
    (List.zipWith (List.zipWith (· + ·)) a b).getD j []
      = List.zipWith (· + ·) (a.getD j []) (b.getD j []) := by
  have hz : j < (List.zipWith (List.zipWith (· + ·)) a b).length := by
    rw [List.length_zipWith]
    omega
  rw [List.getD_eq_getElem _ _ hz, List.getD_eq_getElem _ _ ha,
    List.getD_eq_getElem _ _ hb, List.getElem_zipWith]

lemma foldl_zip_getD (shape : List Nat) (j : Nat) (hj : j < shape.length) :
    ∀ (t : List (List (List ℚ))) (acc : List (List ℚ)),
      acc.map List.length = shape → (∀ h ∈ t, h.map List.length = shape) →
      (t.foldl (List.zipWith (List.zipWith (· + ·))) acc).getD j []
        = (t.map (fun h => h.getD j [])).foldl (List.zipWith (· + ·))
            (acc.getD j []) := by
  intro t
  induction t with
  | nil => intro acc _ _; rfl
  | cons h t ih =>
    intro acc hacc ht
    have hh : h.map List.length = shape := ht h (List.mem_cons_self _ _)
    have hshape : acc.map List.length = h.map List.length := by rw [hacc, hh]
    have ha : j < acc.length := by rw [length_of_shape hacc]; exact hj
    have hb : j < h.length := by rw [length_of_shape hh]; exact hj
    rw [List.foldl_cons, List.map_cons, List.foldl_cons,
      ih _ (by rw [zipWith_zipWith_shape acc h hshape, hacc])
        (fun h' hh' => ht h' (List.mem_cons_of_mem h hh')),
      zipWith_zip_getD acc h j ha hb]

lemma sumShaped_getD (shape : List Nat) (hs : List (List (List ℚ)))
    (hsh : ∀ h ∈ hs, h.map List.length = shape) (j : Nat)
    (hj : j < shape.length) :
    (sumShaped hs).getD j []
      = sumLists (hs.map (fun h => h.getD j [])) := by
  cases hs with
  | nil => rfl
  | cons h t =>
    rw [sumShaped, List.map_cons, sumLists]
    exact foldl_zip_getD shape j hj t h (hsh h (List.mem_cons_self _ _))
      (fun h' hh' => hsh h' (List.mem_cons_of_mem h hh'))

lemma zipWith_add_map_div (w : ℚ) :
    ∀ (a b : List ℚ),
      List.zipWith (· + ·) (a.map (· / w)) (b.map (· / w))
        = (List.zipWith (· + ·) a b).map (· / w) := by
  intro a
  induction a with
  | nil => intro b; rfl
  | cons x xs ih =>
    intro b
    cases b with
    | nil => rfl
    | cons y ys =>
      simp only [List.map_cons, List.zipWith_cons_cons, ih ys,
        List.cons.injEq, and_true]
      rw [div_add_div_same]

lemma foldl_map_div (w : ℚ) :
    ∀ (t : List (List ℚ)) (acc : List ℚ),
      (t.map (List.map (· / w))).foldl (List.zipWith (· + ·))
          (acc.map (· / w))
        = (t.foldl (List.zipWith (· + ·)) acc).map (· / w) := by
  intro t
  induction t with
  | nil => intro acc; rfl
  | cons h t ih =>
    intro acc
    rw [List.map_cons, List.foldl_cons, List.foldl_cons,
      zipWith_add_map_div w acc h, ih]

lemma sumLists_map_div (w : ℚ) (ls : List (List ℚ)) :
    sumLists (ls.map (List.map (· / w))) = (sumLists ls).map (· / w) := by
  cases ls with
  | nil => rfl
  | cons h t =>
    rw [List.map_cons, sumLists, sumLists, foldl_map_div]

lemma SameShape.symm {ps qs : List Param} (h : SameShape ps qs) :
    SameShape qs ps := by
  have hlen := h.1
  refine ⟨hlen.symm, fun i hi => ?_⟩
  obtain ⟨a, b, c⟩ := h.2 i (by omega)
  exact ⟨a.symm, b.symm, c.symm⟩

lemma SameShape.trans {ps qs rs : List Param} (h1 : SameShape ps qs)
    (h2 : SameShape qs rs) : SameShape ps rs := by
  have hl1 := h1.1
  refine ⟨hl1.trans h2.1, fun i hi => ?_⟩
  obtain ⟨a, b, c⟩ := h1.2 i hi
  obtain ⟨a', b', c'⟩ := h2.2 i (by omega)
  exact ⟨a.trans a', b.trans b', c.trans c'⟩

/-- C4: modelling `all_reduce` as the elementwise sum over the data-parallel
group, with the world size equal to the number of replicas and all replicas
structurally agreeing (same parameter count, `requires_grad` flags, dtypes
and gradient shapes), `allreduce_gradients` leaves every replica's
gradient, for every parameter with `requires_grad` and a non-null gradient,
equal to the elementwise arithmetic mean of all replicas' pre-call
gradients: each dtype bucket is flattened into one buffer, divided by the
world size, all-reduced, and scattered back in place. -/
theorem allreduce_gradients_mean (W : ℕ) (replicas : List (List Param))
    (r i : Nat)
    (hW : W = replicas.length)
    (hr : r < replicas.length)
    (hsame : ∀ qs ∈ replicas, SameShape qs (replicas.getD 0 []))
    (hreq : ((replicas.getD r []).getD i default).requires_grad = true)
    (hgrad : ((replicas.getD r []).getD i default).grad ≠ none) :
    ((allreduce_gradients W replicas).getD r []).getD i default
      = { (replicas.getD r []).getD i default with
          grad := some (meanGrad replicas i) } := by
  set ps := replicas.getD r [] with hps
  have hact : isActive ps i = true := by
    rw [isActive, hreq, Bool.true_and]
    exact Option.isSome_iff_ne_none.mpr hgrad
  have hilen : i < ps.length := lt_length_of_isActive ps i hact
  have hps_mem : ps ∈ replicas := by
    rw [hps, List.getD_eq_getElem replicas [] hr]
    exact List.getElem_mem hr
  have hqs_ps : ∀ qs ∈ replicas, SameShape qs ps := fun qs hq =>
    (hsame qs hq).trans (hsame ps hps_mem).symm
  have hpack : ∀ qs ∈ replicas, packBuckets qs = packBuckets ps :=
    fun qs hq => (hqs_ps qs hq).packBuckets_eq
  -- the bucket holding parameter `i`
  set tp := dtypeAt ps i with htp
  set keysList := firstOccur ((activeIdxs ps).map (dtypeAt ps)) with hkeys
  have hiact : i ∈ activeIdxs ps := (mem_activeIdxs ps i).2 hact
  have htp_keys : tp ∈ keysList := by
    rw [hkeys, mem_firstOccur]
    exact List.mem_map_of_mem _ hiact
  set m := keysList.indexOf tp with hmdef
  have hm_keys : m < keysList.length := List.indexOf_lt_length.2 htp_keys
  have hm : m < (packBuckets ps).length := by
    rw [packBuckets, List.length_map]
    exact hm_keys
  set idxs := (activeIdxs ps).filter (fun e => dtypeAt ps e = tp) with hidxs
  have hkey_m : keysList[m] = tp := List.getElem_indexOf hm_keys
  have hpb_map : packBuckets ps = keysList.map
      (fun tp' => (tp', (activeIdxs ps).filter
        (fun e => dtypeAt ps e = tp'))) := rfl
  have hbucket_getElem : (packBuckets ps)[m] = (tp, idxs) := by
    have hmk : m < (keysList.map (fun tp' => (tp', (activeIdxs ps).filter
        (fun e => dtypeAt ps e = tp')))).length := by
      rw [List.length_map]; exact hm_keys
    show (keysList.map (fun tp' => (tp', (activeIdxs ps).filter
      (fun e => dtypeAt ps e = tp'))))[m] = (tp, idxs)
    rw [List.getElem_map, hkey_m]
  have hbucket_m : (packBuckets ps).get ⟨m, hm⟩ = (tp, idxs) := by
    rw [List.get_eq_getElem]
    exact hbucket_getElem
  have hi_idxs : i ∈ idxs := by
    rw [hidxs, List.mem_filter]
    exact ⟨hiact, by simp⟩
  have hnodup_idxs : idxs.Nodup := List.Nodup.filter _ (nodup_activeIdxs ps)
  have hother : ∀ k', (hk' : k' < (packBuckets ps).length) → k' ≠ m →
      i ∉ ((packBuckets ps).get ⟨k', hk'⟩).2 := by
    intro k' hk' hne hmem
    have hk'keys : k' < keysList.length := by
      rw [hpb_map, List.length_map] at hk'
      exact hk'
    have hbk' : (packBuckets ps).get ⟨k', hk'⟩
        = (keysList[k'], (activeIdxs ps).filter
            (fun e => dtypeAt ps e = keysList[k'])) := by
      have hmk : k' < (keysList.map (fun tp' => (tp', (activeIdxs ps).filter
          (fun e => dtypeAt ps e = tp')))).length := by
        rw [List.length_map]; exact hk'keys
      rw [List.get_eq_getElem]
      show (keysList.map (fun tp' => (tp', (activeIdxs ps).filter
        (fun e => dtypeAt ps e = tp'))))[k'] = _
      rw [List.getElem_map]
    rw [hbk'] at hmem
    have hdt : dtypeAt ps i = keysList[k'] := by
      have := (List.mem_filter.1 hmem).2
      simpa using this
    have hkk : keysList[k'] = keysList[m] := by
      rw [hkey_m, htp]
      exact hdt.symm
    have hnd : keysList.Nodup := hkeys ▸ nodup_firstOccur _
    exact hne (hnd.getElem_inj_iff.1 hkk)
  -- apply the bucket-loop characterization
  have hmain := applyBucketsFrom_getD_spec W replicas ps i (packBuckets ps)
    0 ps m hm (by rw [hbucket_m]; exact hi_idxs) hother
    (by rw [hbucket_m]; exact hnodup_idxs) hilen
  have hall : (allreduce_gradients W replicas).getD r []
      = applyBucketsFrom W replicas ps 0 (packBuckets ps) ps := by
    rw [allreduce_gradients, List.getD_eq_getElem _ _
      (by rw [List.length_map]; exact hr), List.getElem_map,
      ← List.getD_eq_getElem replicas [] hr]
  rw [hall, hmain, hbucket_m]
  -- it remains to show the copied-back piece is the elementwise mean
  suffices hsuff : (unflattenInto (idxs.map (fun e => (gradAt ps e).length))
      (syncedBuffer W replicas (0 + m))).getD (idxs.indexOf i) []
        = meanGrad replicas i by rw [hsuff]
  simp only [Nat.zero_add]
  -- compute the synced buffer for bucket `m`
  set shape := idxs.map (fun e => (gradAt ps e).length) with hshape
  have hmem_lt : ∀ e ∈ idxs, e < ps.length := by
    intro e he
    have : e ∈ activeIdxs ps := (List.mem_filter.1 (hidxs ▸ he)).1
    exact lt_length_of_isActive ps e ((mem_activeIdxs ps e).1 this)
  set hq := fun qs => (idxs.map (gradAt qs)).map (List.map (· / (W : ℚ)))
    with hhq
  have hsync : syncedBuffer W replicas m
      = (sumShaped (replicas.map hq)).flatten := by
    rw [syncedBuffer]
    have hstep : replicas.map (fun qs => nthBucketBuffer W qs m)
        = (replicas.map hq).map List.flatten := by
      rw [List.map_map]
      apply List.map_congr_left
      intro qs hqmem
      have hpb : (packBuckets qs).getD m ("", []) = (tp, idxs) := by
        rw [hpack qs hqmem, List.getD_eq_getElem _ _ hm]
        exact hbucket_getElem
      show nthBucketBuffer W qs m = (List.flatten ∘ hq) qs
      rw [nthBucketBuffer, hpb]
      show (bucketBuffer qs idxs).map (· / (W : ℚ))
        = ((idxs.map (gradAt qs)).map (List.map (· / (W : ℚ)))).flatten
      rw [bucketBuffer]
      exact List.map_flatten _ _
    rw [hstep]
    apply sumLists_map_flatten shape
    intro h hh
    obtain ⟨qs, hqmem, rfl⟩ := List.mem_map.1 hh
    rw [hhq]
    simp only [List.map_map]
    rw [hshape]
    apply List.map_congr_left
    intro e he
    simp only [Function.comp_apply, List.length_map]
    exact (hqs_ps qs hqmem).gradAt_length_eq e
      (by rw [(hqs_ps qs hqmem).1]; exact hmem_lt e he)
  have hrep_ne : replicas.map hq ≠ [] := by
    intro hc
    rw [List.map_eq_nil_iff] at hc
    rw [hc] at hr
    simp at hr
  have hSshape : (sumShaped (replicas.map hq)).map List.length = shape := by
    apply sumShaped_shape shape _ hrep_ne
    intro h hh
    obtain ⟨qs, hqmem, rfl⟩ := List.mem_map.1 hh
    rw [hhq]
    simp only [List.map_map]
    rw [hshape]
    apply List.map_congr_left
    intro e he
    simp only [Function.comp_apply, List.length_map]
    exact (hqs_ps qs hqmem).gradAt_length_eq e
      (by rw [(hqs_ps qs hqmem).1]; exact hmem_lt e he)
  have hunf : unflattenInto shape (syncedBuffer W replicas m)
      = sumShaped (replicas.map hq) := by
    rw [hsync, ← hSshape, unflatten_flatten]
  rw [hunf]
  -- extract position `j` of parameter `i` inside the bucket
  set j := idxs.indexOf i with hjdef
  have hj : j < idxs.length := List.indexOf_lt_length.2 hi_idxs
  have hj_shape : j < shape.length := by
    rw [hshape, List.length_map]
    exact hj
  have hgetD : (sumShaped (replicas.map hq)).getD j []
      = sumLists ((replicas.map hq).map (fun h => h.getD j [])) := by
    apply sumShaped_getD shape _ _ j hj_shape
    intro h hh
    obtain ⟨qs, hqmem, rfl⟩ := List.mem_map.1 hh
    rw [hhq]
    simp only [List.map_map]
    rw [hshape]
    apply List.map_congr_left
    intro e he
    simp only [Function.comp_apply, List.length_map]
    exact (hqs_ps qs hqmem).gradAt_length_eq e
      (by rw [(hqs_ps qs hqmem).1]; exact hmem_lt e he)
  rw [hgetD, List.map_map]
  have hij : idxs[j] = i := by
    have hj0 : idxs.indexOf i < idxs.length := List.indexOf_lt_length.2 hi_idxs
    have := List.getElem_indexOf hj0
    simpa [← hjdef] using this
  have hpt : ((fun h => h.getD j []) ∘ hq : List Param → List ℚ)
      = fun qs => (gradAt qs i).map (· / (W : ℚ)) := by
    funext qs
    simp only [Function.comp_apply, hhq]
    have hjq : j < (idxs.map (gradAt qs)).length := by
      rw [List.length_map]; exact hj
    have hjqq : j < ((idxs.map (gradAt qs)).map
        (List.map (· / (W : ℚ)))).length := by
      rw [List.length_map]; exact hjq
    rw [List.getD_eq_getElem _ _ hjqq, List.getElem_map, List.getElem_map,
      hij]
  rw [hpt]
  have hcomp : ((fun qs => (gradAt qs i).map (· / (W : ℚ)))
      : List Param → List ℚ)
      = (List.map (· / (W : ℚ))) ∘ (fun qs => gradAt qs i) := rfl
  rw [hcomp, ← List.map_map, sumLists_map_div, meanGrad, hW]

/-- Witness for `allreduce_gradients_mean`: two replicas, two parameters of
distinct dtypes; the float-dtype parameter's gradient becomes the mean
`[(1+3)/2, (3+5)/2] = [2, 4]` on replica 0. -/
theorem allreduce_gradients_mean_witness :
    (2 = ([[⟨true, "torch.FloatTensor", some [1, 3]⟩,
            ⟨true, "torch.HalfTensor", some [2]⟩],
           [⟨true, "torch.FloatTensor", some [3, 5]⟩,
            ⟨true, "torch.HalfTensor", some [4]⟩]] :
             List (List Param)).length) ∧
    meanGrad [[⟨true, "torch.FloatTensor", some [1, 3]⟩,
            ⟨true, "torch.HalfTensor", some [2]⟩],
           [⟨true, "torch.FloatTensor", some [3, 5]⟩,
            ⟨true, "torch.HalfTensor", some [4]⟩]] 0 = [2, 4] ∧
    ((allreduce_gradients 2
        [[⟨true, "torch.FloatTensor", some [1, 3]⟩,
          ⟨true, "torch.HalfTensor", some [2]⟩],
         [⟨true, "torch.FloatTensor", some [3, 5]⟩,
          ⟨true, "torch.HalfTensor", some [4]⟩]]).getD 0 []).getD 0 default
      = ⟨true, "torch.FloatTensor", some (meanGrad
          [[⟨true, "torch.FloatTensor", some [1, 3]⟩,
            ⟨true, "torch.HalfTensor", some [2]⟩],
           [⟨true, "torch.FloatTensor", some [3, 5]⟩,
            ⟨true, "torch.HalfTensor", some [4]⟩]] 0)⟩ := by
  refine ⟨rfl, ?_, ?_⟩
  · rw [meanGrad]
    norm_num [sumLists, gradAt]
  · exact allreduce_gradients_mean 2
      [[⟨true, "torch.FloatTensor", some [1, 3]⟩,
        ⟨true, "torch.HalfTensor", some [2]⟩],
       [⟨true, "torch.FloatTensor", some [3, 5]⟩,
        ⟨true, "torch.HalfTensor", some [4]⟩]] 0 0 rfl (by norm_num)
      (by
        intro qs hq
        rcases List.mem_cons.1 hq with rfl | hq2
        · exact ⟨rfl, fun e he => ⟨rfl, rfl, rfl⟩⟩
        · rcases List.mem_cons.1 hq2 with rfl | hq3
          · refine ⟨rfl, fun e he => ?_⟩
            match e with
            | 0 => exact ⟨rfl, rfl, rfl⟩
            | 1 => exact ⟨rfl, rfl, rfl⟩
            | n + 2 => exact absurd he (by norm_num)
          · simp at hq3)
      rfl (by simp)

/-! ## Autoregressive decoder (`decode`, source lines 634-671, and
`complete`, source lines 673-714) -/

/-- Modelled from the spec: the external tokenizer interface (§6) reduced to
what `decode`/`complete` read — the special token ids and the two rendering
maps.  Real tokenizers render special (non-text) tokens as no text; a stub
for the decoder test must satisfy `tokens_to_text (ids_to_tokens [bos]) = ""`
(taken as a hypothesis below and discharged by the concrete stub). -/
structure Tokenizer where
  bos_id : Nat
  eos_id : Nat
  pad_id : Nat
  ids_to_tokens : List Nat → List String
  tokens_to_text : List String → String

/-- The body of `decode`'s generation loop (source lines 650-669):
`step prefix` abstracts one forward pass with the growing decoded prefix,
the tensor-parallel gather, and the arg-max over the last position's
logits; each iteration appends the produced token and breaks early when it
equals the end-of-sequence id. -/
def decodeLoop (step : List Nat → Nat) (eos_id : Nat) :
    Nat → List Nat → List Nat
  | 0, predicted_tokens_dec => predicted_tokens_dec
  | n + 1, predicted_tokens_dec =>
      let t := step predicted_tokens_dec
      let predicted2 := predicted_tokens_dec ++ [t]
      if t = eos_id then predicted2 else decodeLoop step eos_id n predicted2

/-- `decode` (source lines 634-671): start from the single
beginning-of-sequence token and run up to `num_tokens_to_generate` loop
iterations.  (The cached encoder states and the per-step log-probabilities,
which the claim does not constrain, are not modelled.) -/
def decode (tok : Tokenizer) (step : List Nat → Nat)
    (num_tokens_to_generate : Nat) : List Nat :=
  decodeLoop step tok.eos_id num_tokens_to_generate [tok.bos_id]

/-- The post-processing of `complete` (source lines 702-711): trim the
decoded ids at the first end-of-sequence token, or strip pad tokens when no
end-of-sequence token is present; then render the remaining tokens as text.
Returns `(completion text, trimmed ids)`. -/
def complete (tok : Tokenizer) (step : List Nat → Nat)
    (tokens_to_generate : Nat) : String × List Nat :=
  let predicted_tokens_ids := decode tok step tokens_to_generate
  let trimmed := if tok.eos_id ∈ predicted_tokens_ids
    then predicted_tokens_ids.take (predicted_tokens_ids.indexOf tok.eos_id)
    else predicted_tokens_ids.filter (fun id => id ≠ tok.pad_id)
  (tok.tokens_to_text (tok.ids_to_tokens trimmed), trimmed)

/-- C6: against a model stub whose arg-max token is always the
end-of-sequence id and a tokenizer stub that renders the lone
beginning-of-sequence token as no text, a decode request with
`tokens_to_generate = 5` stops after exactly one generated token
(`decode` returns `[bos, eos]`), `complete` trims the ids at the first
end-of-sequence token (leaving `[bos]`), and the completion text is the
empty string. -/
theorem decode_eos_stub_stops_after_one (tok : Tokenizer)
    (step : List Nat → Nat)
    (hstep : ∀ pfx, step pfx = tok.eos_id)
    (hne : tok.bos_id ≠ tok.eos_id)
    (htext : tok.tokens_to_text (tok.ids_to_tokens [tok.bos_id]) = "") :
    decode tok step 5 = [tok.bos_id, tok.eos_id] ∧
    (complete tok step 5).2 = [tok.bos_id] ∧
    (complete tok step 5).1 = "" := by
  have hdec : decode tok step 5 = [tok.bos_id, tok.eos_id] := by
    rw [decode, decodeLoop]
    simp [hstep]
  refine ⟨hdec, ?_, ?_⟩
  · rw [complete]
    simp only [hdec]
    have hmem : tok.eos_id ∈ [tok.bos_id, tok.eos_id] := by simp
    have hidx : [tok.bos_id, tok.eos_id].indexOf tok.eos_id = 1 := by
      rw [List.indexOf_cons_ne _ (by simpa using hne), List.indexOf_cons_self]
    simp [hmem, hidx]
  · rw [complete]
    simp only [hdec]
    have hmem : tok.eos_id ∈ [tok.bos_id, tok.eos_id] := by simp
    have hidx : [tok.bos_id, tok.eos_id].indexOf tok.eos_id = 1 := by
      rw [List.indexOf_cons_ne _ (by simpa using hne), List.indexOf_cons_self]
    simpa [hmem, hidx] using htext

/-- Witness for `decode_eos_stub_stops_after_one` with a concrete stub:
bos = 0, eos = 1, pad = 2; every id renders as a token string that is empty
for the special ids; text is the concatenation of token strings. -/
theorem decode_eos_stub_witness :
    decode
      ⟨0, 1, 2,
        fun ids => ids.map (fun id => if id ≤ 2 then "" else toString id),
        fun toks => String.join toks⟩
      (fun _ => 1) 5 = [0, 1] ∧
    (complete
      ⟨0, 1, 2,
        fun ids => ids.map (fun id => if id ≤ 2 then "" else toString id),
        fun toks => String.join toks⟩
      (fun _ => 1) 5).1 = "" := by
  have h := decode_eos_stub_stops_after_one
    ⟨0, 1, 2,
      fun ids => ids.map (fun id => if id ≤ 2 then "" else toString id),
      fun toks => String.join toks⟩
    (fun _ => 1) (fun _ => rfl) (by decide) (by simp [String.join])
  exact ⟨h.1, h.2.2⟩

/-! ## Consumed-samples extraction (`setup_training_data`, source lines
541-550)

`consumed_samples = int(float(re.findall(r"consumed_samples\=([0-9]+.[0-9]+)",
resume_checkpoint_path)[0]))` — note the UNESCAPED dot: the group is
`[0-9]+` then ANY character (except newline) then `[0-9]+`, so the shortest
possible match has three characters. -/

/-- Length of the maximal leading digit run (`[0-9]+` greedy). -/
def digitRun : List Char → Nat
  | [] => 0
  | c :: cs => if c.isDigit then digitRun cs + 1 else 0

/-- Does `t` occur literally at the head of `s`? -/
def matchesAt : List Char → List Char → Bool
  | [], _ => true
  | _ :: _, [] => false
  | t :: ts, c :: cs => t = c && matchesAt ts cs

/-- Backtracking for `([0-9]+.[0-9]+)` at the head of `s`: the leading
`[0-9]+` tries the longest run first and backs off one digit at a time
(fuel = candidate length of the first `[0-9]+`); the `.` consumes one
arbitrary non-newline character; the trailing `[0-9]+` is greedy.  Returns
the total matched length. -/
def matchNumAux (s : List Char) : Nat → Option Nat
  | 0 => none
  | a + 1 =>
      if a + 1 < s.length ∧ s.getD (a + 1) ' ' ≠ '\n' ∧
          1 ≤ digitRun (s.drop (a + 2)) then
        some (a + 2 + digitRun (s.drop (a + 2)))
      else matchNumAux s a

/-- Match `([0-9]+.[0-9]+)` at the head of `s` (Python greedy semantics). -/
def matchNum (s : List Char) : Option Nat :=
  matchNumAux s (digitRun s)

/-- The literal part of the pattern. -/
def tagChars : List Char := "consumed_samples=".toList

/-- `re.findall(..)[0]`: scan left to right for the first position where the
literal tag matches and is followed by a `([0-9]+.[0-9]+)` match; return
that group's characters. -/
def findMatch : List Char → Option (List Char)
  | [] => none
  | c :: rest =>
      if matchesAt tagChars (c :: rest) then
        match matchNum ((c :: rest).drop tagChars.length) with
        | some n => some (((c :: rest).drop tagChars.length).take n)
        | none => findMatch rest
      else findMatch rest

/-- Numeric value of a digit string. -/
def natOfDigits (ds : List Char) : Nat :=
  ds.foldl (fun acc c => acc * 10 + (c.toNat - '0'.toNat)) 0

/-- Python `float(..)` on the shapes the group can produce (`digits`,
`digits . digits`, or `digits <other char> digits`): a plain digit string or
a digits-dot-digits string parses; anything else raises `ValueError`
(`none`).  Exponent and leading/trailing-dot forms cannot arise from this
group and are omitted. -/
def floatOfMatch (m : List Char) : Option ℚ :=
  let intPart := m.takeWhile Char.isDigit
  let rest := m.dropWhile Char.isDigit
  match rest with
  | [] => if intPart.isEmpty then none else some (natOfDigits intPart)
  | c :: frac =>
      if c = '.' ∧ ¬ intPart.isEmpty ∧ ¬ frac.isEmpty ∧
          frac.all Char.isDigit then
        some ((natOfDigits intPart : ℚ)
          + (natOfDigits frac : ℚ) / (10 : ℚ) ^ frac.length)
      else none

/-- Python `int(..)` on a float: truncation toward zero. -/
def pyInt (q : ℚ) : ℤ :=
  if 0 ≤ q then ⌊q⌋ else ⌈q⌉

/-- The consumed-samples count computed by `setup_training_data` (source
lines 543-549): `0` when no resume path is set; otherwise
`int(float(findall(..)[0]))`, where an empty findall result (`none` here)
raises `IndexError` and an unparsable group raises `ValueError`. -/
def setup_training_data_consumed (resume_checkpoint_path : Option (List Char)) :
    Option ℤ :=
  match resume_checkpoint_path with
  | none => some 0
  | some p =>
      match findMatch p with
      | none => none
      | some m =>
          match floatOfMatch m with
          | none => none
          | some q => some (pyInt q)

/-- C8 (counterexample to the claim as stated): the resume path
`"ckpt-consumed_samples=5"` contains `consumed_samples=5` with the
non-negative integer `5`, but the regex group `([0-9]+.[0-9]+)` needs at
least three characters, `findall` returns nothing, and the `[0]` lookup
raises `IndexError` (modelled as `none`) instead of extracting `5`. -/
theorem setup_training_data_short_number_cex :
    setup_training_data_consumed (some ("ckpt-consumed_samples=5".toList))
      = none ∧
    (none : Option ℤ) ≠ some 5 := by
  refine ⟨by decide, by decide⟩

lemma all_drop {ds : List Char} (h : ds.all Char.isDigit = true) (k : Nat) :
    (ds.drop k).all Char.isDigit = true := by
  rw [List.all_eq_true] at h ⊢
  intro x hx
  exact h x (List.mem_of_mem_drop hx)

lemma digitRun_eq_length {ds : List Char}
    (h : ds.all Char.isDigit = true) : digitRun ds = ds.length := by
  induction ds with
  | nil => rfl
  | cons c cs ih =>
    rw [List.all_cons, Bool.and_eq_true] at h
    rw [digitRun, if_pos h.1, ih h.2, List.length_cons]

lemma matchesAt_append (t r : List Char) : matchesAt t (t ++ r) = true := by
  induction t with
  | nil => rfl
  | cons c cs ih =>
    rw [List.cons_append, matchesAt, ih]
    simp

lemma getD_isDigit {ds : List Char} (h : ds.all Char.isDigit = true)
    (k : Nat) (hk : k < ds.length) : (ds.getD k ' ').isDigit = true := by
  rw [List.getD_eq_getElem _ _ hk]
  rw [List.all_eq_true] at h
  exact h _ (List.getElem_mem hk)

lemma isDigit_ne_newline {c : Char} (h : c.isDigit = true) : c ≠ '\n' := by
  intro hc
  subst hc
  simp [Char.isDigit] at h

lemma matchNum_all_digits {ds : List Char}
    (hds : ds.all Char.isDigit = true) (hlen : 3 ≤ ds.length) :
    matchNum ds = some ds.length := by
  obtain ⟨k, hk⟩ : ∃ k, ds.length = k + 3 := ⟨ds.length - 3, by omega⟩
  rw [matchNum, digitRun_eq_length hds, hk]
  show matchNumAux ds (k + 2 + 1) = some (k + 3)
  rw [matchNumAux, if_neg (by rintro ⟨h1, -, -⟩; omega)]
  show matchNumAux ds (k + 1 + 1) = some (k + 3)
  rw [matchNumAux, if_neg (by
    rintro ⟨-, -, h3⟩
    rw [List.drop_eq_nil_of_le (by omega)] at h3
    simp [digitRun] at h3)]
  have hdr : digitRun (ds.drop (k + 2)) = 1 := by
    rw [digitRun_eq_length (all_drop hds (k + 2)), List.length_drop]
    omega
  rw [matchNumAux, if_pos ⟨by omega,
    isDigit_ne_newline (getD_isDigit hds (k + 1) (by omega)),
    by rw [hdr]⟩, hdr]

lemma findMatch_head_match (c : Char) (rest : List Char)
    (hmatch : matchesAt tagChars (c :: rest) = true)
    (n : Nat) (hnum : matchNum ((c :: rest).drop tagChars.length) = some n) :
    findMatch (c :: rest)
      = some (((c :: rest).drop tagChars.length).take n) := by
  rw [findMatch, if_pos hmatch, hnum]

lemma findMatch_append_of_no_tag :
    ∀ (pre s : List Char),
      (∀ k, k < pre.length →
        matchesAt tagChars ((pre ++ s).drop k) = false) →
      findMatch (pre ++ s) = findMatch s := by
  intro pre
  induction pre with
  | nil => intro s _; rfl
  | cons c pre' ih =>
    intro s h
    have h0 := h 0 (by simp)
    rw [List.drop_zero, List.cons_append] at h0
    rw [List.cons_append, findMatch, if_neg (by simp [h0])]
    apply ih
    intro k hk
    have hx := h (k + 1) (by simpa using Nat.succ_lt_succ hk)
    rw [List.cons_append, List.drop_succ_cons] at hx
    exact hx

lemma floatOfMatch_all_digits {ds : List Char} (hne : ds ≠ [])
    (hds : ds.all Char.isDigit = true) :
    floatOfMatch ds = some ((natOfDigits ds : ℚ)) := by
  have htw : ds.takeWhile Char.isDigit = ds := by
    rw [List.takeWhile_eq_self_iff]
    rw [List.all_eq_true] at hds
    exact hds
  have hdw : ds.dropWhile Char.isDigit = [] := by
    rw [List.dropWhile_eq_nil_iff]
    rw [List.all_eq_true] at hds
    exact hds
  rw [floatOfMatch]
  simp only [htw, hdw]
  rw [if_neg (by simpa [List.isEmpty_iff] using hne)]

/-- C8 (amended): when a resume path is set and has the form
`pre ++ "consumed_samples=" ++ digits` — the digit string closing the path,
at least THREE digits long, with no occurrence of the literal
`consumed_samples=` starting inside `pre` — `setup_training_data` extracts
exactly the integer denoted by the digit string; with no resume path set the
count is `0`.  (With one or two digits the lookup raises `IndexError`, per
the counterexample.) -/
theorem setup_training_data_extracts_amended (pre ds : List Char)
    (hds : ds.all Char.isDigit = true)
    (hlen : 3 ≤ ds.length)
    (hpre : ∀ k, k < pre.length →
      matchesAt tagChars ((pre ++ (tagChars ++ ds)).drop k) = false) :
    setup_training_data_consumed (some (pre ++ (tagChars ++ ds)))
      = some ((natOfDigits ds : ℤ)) ∧
    setup_training_data_consumed none = some 0 := by
  refine ⟨?_, rfl⟩
  have hskip : findMatch (pre ++ (tagChars ++ ds)) = findMatch (tagChars ++ ds) :=
    findMatch_append_of_no_tag pre (tagChars ++ ds) hpre
  have hfm : findMatch (tagChars ++ ds) = some ds := by
    have hm : matchesAt tagChars (tagChars ++ ds) = true := matchesAt_append _ _
    have hd : (tagChars ++ ds).drop tagChars.length = ds :=
      List.drop_left _ _
    have hne2 : tagChars ++ ds ≠ [] := by
      apply List.ne_nil_of_length_pos
      rw [List.length_append]
      have htl : tagChars.length = 17 := by decide
      omega
    obtain ⟨c, rest, hcr⟩ := List.exists_cons_of_ne_nil hne2
    rw [hcr] at hm hd ⊢
    rw [findMatch_head_match c rest hm ds.length
      (by rw [hd]; exact matchNum_all_digits hds hlen), hd, List.take_length]
  have hdsne : ds ≠ [] := by
    intro hc
    rw [hc] at hlen
    simp at hlen
  have hbody : setup_training_data_consumed (some (pre ++ (tagChars ++ ds)))
      = (match floatOfMatch ds with
         | none => (none : Option ℤ)
         | some q => some (pyInt q)) := by
    show (match findMatch (pre ++ (tagChars ++ ds)) with
       | none => (none : Option ℤ)
       | some m => match floatOfMatch m with
         | none => none
         | some q => some (pyInt q)) = _
    rw [hskip, hfm]
  rw [hbody, floatOfMatch_all_digits hdsne hds]
  show some (pyInt ((natOfDigits ds : ℚ))) = some ((natOfDigits ds : ℤ))
  rw [pyInt, if_pos (by positivity)]
  norm_num

/-- Witness for `setup_training_data_extracts_amended` at the path
`"ckpt-consumed_samples=159000"`. -/
theorem setup_training_data_extracts_witness :
    setup_training_data_consumed
      (some (("ckpt-".toList) ++ (tagChars ++ "159000".toList)))
      = some 159000 := by
  have h := (setup_training_data_extracts_amended "ckpt-".toList
    "159000".toList (by decide) (by decide) (by decide)).1
  rw [h]
  decide

end Megatron
